import Mathlib

/-!
A verification development for the folder-organizer engine.  The decision
and execution core (exclusion checks, filter-to-action matching with
priority ordering, hierarchical destination composition, duplicate
resolution on move, dry-run versus apply, and the operation log) is
embedded as executable functions over an explicit filesystem model, and
the behavioural claims about the engine are settled as theorems.

Paths are plain strings, manipulated by faithful models of the posix
path helpers used by the program (join, basename, dirname, splitext).
Timestamps are integers (seconds).  Timezone-dependent conversions
(strftime rendering of a timestamp, parsing of the exclusion date) are
supplied by an environment record, since they depend on the host locale
and clock rather than on the engine itself.
-/

set_option maxHeartbeats 1000000

deriving instance DecidableEq for Except

namespace FOrg

/-! ## String helpers (models of the Python primitives used) -/

/-- Model of a list-prefix test on character lists. -/
def pfxOf : List Char → List Char → Bool
  | [], _ => true
  | _ :: _, [] => false
  | a :: as, b :: bs => a == b && pfxOf as bs

/-- Model of a contiguous-sublist test on character lists. -/
def subOf (needle : List Char) : List Char → Bool
  | [] => needle.isEmpty
  | c :: cs => pfxOf needle (c :: cs) || subOf needle cs

/-- Model of the Python containment test on strings: pyIn sub hay means sub occurs in hay. -/
def pyIn (needle hay : String) : Bool :=
  subOf needle.toList hay.toList

/-- Model of str.lower at the granularity used by the program. -/
def lowerStr (s : String) : String :=
  String.mk (s.toList.map Char.toLower)

/-- Index of the last occurrence of a character, scanning left to right. -/
def rfindIdxAux (c : Char) : List Char → Nat → Option Nat → Option Nat
  | [], _, acc => acc
  | x :: xs, i, acc => rfindIdxAux c xs (i + 1) (if x == c then some i else acc)

/-- Index of the last occurrence of a character in a character list, if any. -/
def rfindIdx (c : Char) (l : List Char) : Option Nat :=
  rfindIdxAux c l 0 none

/-- Model of posix splitext: split at the last dot of the final path
component, except that dots leading that component do not start an
extension. -/
def splitext (p : String) : String × String :=
  let l := p.toList
  match rfindIdx '.' l with
  | none => (p, "")
  | some di =>
    let lo : Nat := match rfindIdx '/' l with | none => 0 | some si => si + 1
    if decide (lo ≤ di) &&
        (List.range di).any (fun k => decide (lo ≤ k) && l.getD k '.' != '.') then
      (String.mk (l.take di), String.mk (l.drop di))
    else (p, "")

/-- Model of posix basename: everything after the last slash. -/
def basename (p : String) : String :=
  match rfindIdx '/' p.toList with
  | none => p
  | some i => String.mk (p.toList.drop (i + 1))

/-- Model of posix dirname: everything up to the last slash, with
trailing slashes stripped unless the head is all slashes. -/
def dirname (p : String) : String :=
  let l := p.toList
  let i : Nat := match rfindIdx '/' l with | none => 0 | some j => j + 1
  let head := l.take i
  if head.isEmpty || head.all (fun c => c == '/') then String.mk head
  else String.mk ((head.reverse.dropWhile (fun c => c == '/')).reverse)

/-- Model of the two-argument posix join. -/
def pathJoin (a b : String) : String :=
  if b.toList.head? == some '/' then b
  else if a.toList.isEmpty || a.toList.getLast? == some '/' then a ++ b
  else a ++ "/" ++ b

/-- Model of str.replace for a nonempty pattern: leftmost non-overlapping
occurrences replaced, scanning left to right.  The fuel bounds the scan
length and is never exhausted when it starts at the list length, since
every step consumes at least one character. -/
def replList (pat rep : List Char) : Nat → List Char → List Char
  | _, [] => []
  | 0, l => l
  | Nat.succ n, c :: cs =>
    if pat.isEmpty then c :: replList pat rep n cs
    else if pfxOf pat (c :: cs) then rep ++ replList pat rep n (cs.drop (pat.length - 1))
    else c :: replList pat rep n cs

/-- Model of the Python str.replace used to substitute the rename
placeholder (patterns used by the program are nonempty). -/
def pyReplace (s pat rep : String) : String :=
  String.mk (replList pat.toList rep.toList s.toList.length s.toList)

/-! ## Filesystem model -/

/-- Metadata of one file: the three stat timestamps and an abstract
content used to tell files apart. -/
structure FileInfo where
  mtime : Int
  ctime : Int
  atime : Int
  content : String
deriving DecidableEq

/-- A snapshot of the filesystem: regular files with their metadata, and
the set of existing directories. -/
structure FSState where
  files : List (String × FileInfo)
  dirs : List String
deriving DecidableEq

/-- First file entry at a path, if any. -/
def lookupFile (fs : FSState) (p : String) : Option FileInfo :=
  (fs.files.find? (fun q => q.1 == p)).map (fun q => q.2)

/-- Model of os.path.exists restricted to the modelled objects. -/
def path_exists (fs : FSState) (p : String) : Bool :=
  fs.files.any (fun q => q.1 == p) || fs.dirs.contains p

/-- Model of os.path.getmtime: raises when the file is absent. -/
def getmtime (fs : FSState) (p : String) : Except String Int :=
  match lookupFile fs p with
  | some fi => .ok fi.mtime
  | none => .error ("No such file: " ++ p)

/-- Model of os.remove: raises when the file is absent. -/
def os_remove (fs : FSState) (p : String) : Except String FSState :=
  if fs.files.any (fun q => q.1 == p) then
    .ok { fs with files := fs.files.filter (fun q => !(q.1 == p)) }
  else .error ("No such file: " ++ p)

/-- A path together with its chain of parent directories. -/
def ancestorsOf : Nat → String → List String
  | 0, p => [p]
  | Nat.succ n, p =>
    let d := dirname p
    if d == p || d == "" then [p] else p :: ancestorsOf n d

/-- Model of os.makedirs with exist_ok: the directory and all its
intermediate segments come into existence. -/
def os_makedirs (fs : FSState) (p : String) : FSState :=
  { fs with dirs := fs.dirs ++ ancestorsOf p.length p }

/-- Model of a same-filesystem move (shutil.move / os.rename at the
granularity of this model): raises when the source is absent or the
destination's directory does not exist. -/
def shutil_move (fs : FSState) (src dst : String) : Except String FSState :=
  match lookupFile fs src with
  | none => .error ("No such file: " ++ src)
  | some fi =>
    if fs.dirs.contains (dirname dst) then
      .ok { fs with
            files := ((fs.files.filter (fun q => !(q.1 == src))).filter
              (fun q => !(q.1 == dst))).concat (dst, fi) }
    else .error ("No such directory: " ++ dirname dst)

/-- Model of os.rename, which coincides with shutil_move at this
granularity. -/
def os_rename (fs : FSState) (src dst : String) : Except String FSState :=
  shutil_move fs src dst

/-! ## Configuration model -/

/-- A folder placement rule, as in the FolderRule dataclass. -/
structure FolderRule where
  name : String
  enabled : Bool
  hierarchy_level : Nat
  folder_name : String
  file_extensions : List String
  is_time_based : Bool
  time_pattern : String
  date_source : String
  icon : String
deriving DecidableEq

/-- A filter with its action, as in the FilterAction dataclass (the two
unused date-range fields are omitted). -/
structure FilterAction where
  name : String
  enabled : Bool
  file_types : List String
  name_contains : String
  older_than_days : Option Int
  action_type : String
  destination : String
  rename_pattern : String
  priority : Int
deriving DecidableEq

/-- The settings consulted by the engine, as in the AppSettings
dataclass (fields never read by the engine are omitted). -/
structure AppSettings where
  create_backup_log : Bool
  delete_duplicates : Bool
  exclude_organized_folders : Bool
  exclude_before_date : Option String
  exclude_files : List String
  log_directory : String
deriving DecidableEq

/-- A validated configuration handed to the engine. -/
structure OrgConfig where
  target_folder : String
  folder_rules : List FolderRule
  filter_actions : List FilterAction
  settings : AppSettings
deriving DecidableEq

/-- The run environment: the current clock, its rendering used in the
backup file name, the working directory, the timezone-dependent
strftime rendering of a timestamp, and the timezone-dependent parse of
the exclusion date into a comparable timestamp. -/
structure Env where
  now : Int
  nowStr : String
  cwd : String
  fmt : String → Int → String
  parseDate : String → Option Int

/-- Python truthiness of an optional string. -/
def isTruthyOptStr : Option String → Bool
  | none => false
  | some s => !(s == "")

/-- Python truthiness of the optional age threshold. -/
def truthyOlder : Option Int → Bool
  | none => false
  | some n => !(n == 0)

/-! ## Exclusion evaluator -/

/-- Model of FolderOrganizer.is_excluded.  The date branch looks the
bare filename up relative to the working directory, exactly as the
source does, and treats any failure as not excluded. -/
def is_excluded (env : Env) (s : AppSettings) (fs : FSState) (filename : String) : Bool :=
  if s.exclude_files.any (fun pat => pyIn pat filename) then true
  else
    match s.exclude_before_date with
    | none => false
    | some d =>
      if d == "" then false
      else
        match env.parseDate d, lookupFile fs (pathJoin env.cwd filename) with
        | some ed, some fi => decide (fi.mtime < ed)
        | _, _ => false

/-! ## Filter engine -/

/-- Stable insertion used to model the stable sort by priority,
descending: an element settles in front of the first earlier-sorted
element whose priority does not exceed its own. -/
def insertFilterDesc (f : FilterAction) : List FilterAction → List FilterAction
  | [] => [f]
  | g :: gs => if g.priority ≤ f.priority then f :: g :: gs else g :: insertFilterDesc f gs

/-- Model of sorted(filter_actions, key priority, reverse): a stable
sort, descending by priority. -/
def sortFiltersDesc : List FilterAction → List FilterAction
  | [] => []
  | f :: fs => insertFilterDesc f (sortFiltersDesc fs)

/-- The action dispatch at a matched filter, with k the continuation
taken when the action type is not one of the five known kinds (the
source's elif chain then simply falls through to the next filter). -/
def applyActionK (dry_run : Bool) (fs : FSState) (fp filename file_ext : String)
    (f : FilterAction) (k : Except String (Option String) × FSState) :
    Except String (Option String) × FSState :=
  if f.action_type == "delete" then (.ok (some "DELETE"), fs)
  else if f.action_type == "exclude" then (.ok (some "EXCLUDE"), fs)
  else if f.action_type == "move" || f.action_type == "move_external" then
    (.ok (some f.destination), fs)
  else if f.action_type == "rename" then
    let new_name := pyReplace f.rename_pattern "{original}" (splitext filename).1
    let new_path := pathJoin (dirname fp) (new_name ++ file_ext)
    if dry_run then (.ok none, fs)
    else
      match os_rename fs fp new_path with
      | .error e => (.error e, fs)
      | .ok fs1 => (.ok none, fs1)
  else k

/-- The filter loop of FolderOrganizer.apply_filters over an
already-sorted list: disabled filters are skipped, the criteria are
tested in the source's order (extension set, then name substring, then
the age threshold, whose timestamp lookup can raise), and the first
match dispatches its action. -/
def applyFiltersGo (env : Env) (dry_run : Bool) (fs : FSState) (fp filename file_ext : String) :
    List FilterAction → Except String (Option String) × FSState
  | [] => (.ok none, fs)
  | f :: rest =>
    if !f.enabled then applyFiltersGo env dry_run fs fp filename file_ext rest
    else
      let m1 : Bool := f.file_types.isEmpty || f.file_types.contains file_ext
      let m2 : Bool := m1 && (f.name_contains == "" || pyIn (lowerStr f.name_contains) (lowerStr filename))
      if m2 && truthyOlder f.older_than_days then
        match getmtime fs fp with
        | .error e => (.error e, fs)
        | .ok mt =>
          if Int.fdiv (env.now - mt) 86400 < f.older_than_days.getD 0 then
            applyFiltersGo env dry_run fs fp filename file_ext rest
          else
            applyActionK dry_run fs fp filename file_ext f
              (applyFiltersGo env dry_run fs fp filename file_ext rest)
      else if m2 then
        applyActionK dry_run fs fp filename file_ext f
          (applyFiltersGo env dry_run fs fp filename file_ext rest)
      else applyFiltersGo env dry_run fs fp filename file_ext rest

/-- Model of FolderOrganizer.apply_filters.  The first component is the
returned directive (none for no match and after a rename), the second
the possibly renamed filesystem. -/
def apply_filters (env : Env) (dry_run : Bool) (fas : List FilterAction) (fs : FSState)
    (fp : String) : Except String (Option String) × FSState :=
  let filename := basename fp
  let file_ext := lowerStr (splitext filename).2
  applyFiltersGo env dry_run fs fp filename file_ext (sortFiltersDesc fas)

/-! ## Destination resolver -/

/-- Stable insertion used to model the stable sort by hierarchy level,
ascending. -/
def insertRuleAsc (r : FolderRule) : List FolderRule → List FolderRule
  | [] => [r]
  | s :: ss =>
    if r.hierarchy_level ≤ s.hierarchy_level then r :: s :: ss else s :: insertRuleAsc r ss

/-- Model of sorted(folder_rules, key hierarchy_level): a stable sort,
ascending by level. -/
def sortRulesAsc : List FolderRule → List FolderRule
  | [] => []
  | r :: rs => insertRuleAsc r (sortRulesAsc rs)

/-- The time-derived folder name of a time-based rule, rendered by the
environment's strftime at the rule's pattern. -/
def timeFolderName (env : Env) (r : FolderRule) (ts : Int) : String :=
  if r.time_pattern == "MMM" then env.fmt "%b" ts
  else if r.time_pattern == "YYYY-MM" then env.fmt "%Y-%m" ts
  else if r.time_pattern == "Weekly" then env.fmt "Week_%W_%Y" ts
  else if r.time_pattern == "Daily" then env.fmt "%Y-%m-%d" ts
  else env.fmt "%Y" ts

/-- Model of FolderOrganizer.get_file_date: the stat timestamp selected
by the rule's date source. -/
def get_file_date (fs : FSState) (p ds : String) : Except String Int :=
  if ds == "created" then
    match lookupFile fs p with
    | some fi => .ok fi.ctime
    | none => .error ("No such file: " ++ p)
  else if ds == "accessed" then
    match lookupFile fs p with
    | some fi => .ok fi.atime
    | none => .error ("No such file: " ++ p)
  else getmtime fs p

/-- The inner loop of get_destination at one hierarchy level: the first
rule of the level that matches appends its segment (a time-based rule
always matches; a regular rule matches on the lowered file extension). -/
def levelPick (env : Env) (fs : FSState) (fp file_ext d : String) :
    List FolderRule → Except String String
  | [] => .ok d
  | r :: rs =>
    if r.is_time_based then
      match get_file_date fs fp r.date_source with
      | .error e => .error e
      | .ok ts => .ok (pathJoin d (timeFolderName env r ts))
    else if r.file_extensions.contains file_ext then .ok (pathJoin d r.folder_name)
    else levelPick env fs fp file_ext d rs

/-- The outer loop of get_destination over the hierarchy levels. -/
def levelsGo (env : Env) (fs : FSState) (fp file_ext : String) (rules : List FolderRule) :
    List Nat → String → Except String String
  | [], d => .ok d
  | lv :: ls, d =>
    match levelPick env fs fp file_ext d
        (rules.filter (fun r => r.hierarchy_level == lv && r.enabled)) with
    | .error e => .error e
    | .ok d1 => levelsGo env fs fp file_ext rules ls d1

/-- Model of FolderOrganizer.get_destination: levels 1 through 5 in
ascending order over the stably sorted rules, returning none when the
accumulated path never left the target root. -/
def get_destination (env : Env) (fs : FSState) (rules : List FolderRule) (target fp : String) :
    Except String (Option String) :=
  let filename := basename fp
  let fe := lowerStr (splitext filename).2
  match levelsGo env fs fp fe (sortRulesAsc rules) [1, 2, 3, 4, 5] target with
  | .error e => .error e
  | .ok d => .ok (if d == target then none else some d)

/-! ## File mover -/

/-- The collision counter loop of move_file: starting from the colliding
candidate, append an increasing numeric suffix until a free name is
found (the fuel is an upper bound never reached on real states). -/
def findFreeName (fs : FSState) (dest_dir base ext : String) :
    Nat → String → Nat → String
  | 0, dp, _ => dp
  | Nat.succ n, dp, counter =>
    if path_exists fs dp then
      findFreeName fs dest_dir base ext n
        (pathJoin dest_dir (base ++ "_" ++ toString counter ++ ext)) (counter + 1)
    else dp

/-- Model of FolderOrganizer.move_file: on a name collision either
deduplicate by deleting the older of the two files (aborting the move
when the source was deleted), or find a numbered free name; a completed
move is appended to the operation log. -/
def move_file (s : AppSettings) (fs : FSState) (log : List String) (src dest_dir : String) :
    Except String Unit × FSState × List String :=
  let filename := basename src
  let dest_path := pathJoin dest_dir filename
  if path_exists fs dest_path then
    if s.delete_duplicates then
      match getmtime fs src with
      | .error e => (.error e, fs, log)
      | .ok ms =>
        match getmtime fs dest_path with
        | .error e => (.error e, fs, log)
        | .ok md =>
          if md < ms then
            match os_remove fs dest_path with
            | .error e => (.error e, fs, log)
            | .ok fs1 =>
              match shutil_move fs1 src dest_path with
              | .error e => (.error e, fs1, log)
              | .ok fs2 => (.ok (), fs2, log ++ ["Moved: " ++ src ++ " → " ++ dest_path])
          else
            match os_remove fs src with
            | .error e => (.error e, fs, log)
            | .ok fs1 => (.ok (), fs1, log)
    else
      let be := splitext filename
      let dp := findFreeName fs dest_dir be.1 be.2 (fs.files.length + fs.dirs.length + 2) dest_path 1
      match shutil_move fs src dp with
      | .error e => (.error e, fs, log)
      | .ok fs2 => (.ok (), fs2, log ++ ["Moved: " ++ src ++ " → " ++ dp])
  else
    match shutil_move fs src dest_path with
    | .error e => (.error e, fs, log)
    | .ok fs2 => (.ok (), fs2, log ++ ["Moved: " ++ src ++ " → " ++ dest_path])

/-! ## Orchestrator -/

/-- The mutable run state of one orchestrator pass. -/
structure RunState where
  fs : FSState
  log : List String
  moved : Nat
  created : List String
  errors : List String
  backups : List (String × List String)
deriving DecidableEq

/-- The per-file exception handler: record the error entry and keep the
filesystem as mutated so far. -/
def recordErr (st : RunState) (fs : FSState) (file e : String) : RunState :=
  { st with fs := fs, errors := st.errors ++ ["Error moving " ++ file ++ ": " ++ e] }

/-- Set-insertion used to model the created-folders and to-create
sets. -/
def insertIfAbsent (s : List String) (x : String) : List String :=
  if s.contains x then s else s ++ [x]

/-- The folder-rule part of the apply-mode per-file pipeline: resolve a
destination, create it when missing, then move. -/
def folderPhase (env : Env) (cfg : OrgConfig) (st : RunState) (root file fp : String)
    (fs1 : FSState) : RunState :=
  match get_destination env fs1 cfg.folder_rules cfg.target_folder fp with
  | .error e => recordErr st fs1 file e
  | .ok none => { st with fs := fs1 }
  | .ok (some d) =>
    if !(d == "") && !(d == root) then
      let fs2 := if path_exists fs1 d then fs1 else os_makedirs fs1 d
      let created2 := if path_exists fs1 d then st.created else insertIfAbsent st.created d
      match move_file cfg.settings fs2 st.log fp d with
      | (.error e, fs3, log3) =>
        { st with fs := fs3, log := log3, created := created2,
                  errors := st.errors ++ ["Error moving " ++ file ++ ": " ++ e] }
      | (.ok _, fs3, log3) =>
        { st with fs := fs3, log := log3, created := created2, moved := st.moved + 1 }
    else { st with fs := fs1 }

/-- The apply-mode per-file pipeline of perform_organization: exclusion
gate, filter directives (delete, exclude, literal move), then the
folder-rule phase; any raised step is caught and recorded. -/
def processFile (env : Env) (cfg : OrgConfig) (st : RunState) (root file : String) : RunState :=
  let fp := pathJoin root file
  if is_excluded env cfg.settings st.fs file then st
  else
    match apply_filters env false cfg.filter_actions st.fs fp with
    | (.error e, fs1) => recordErr st fs1 file e
    | (.ok r, fs1) =>
      if isTruthyOptStr r then
        if r == some "DELETE" then
          match os_remove fs1 fp with
          | .error e => recordErr st fs1 file e
          | .ok fs2 => { st with fs := fs2, log := st.log ++ ["Deleted: " ++ fp] }
        else if r == some "EXCLUDE" then { st with fs := fs1 }
        else
          match move_file cfg.settings fs1 st.log fp (r.getD "") with
          | (.error e, fs2, log2) =>
            { st with fs := fs2, log := log2,
                      errors := st.errors ++ ["Error moving " ++ file ++ ": " ++ e] }
          | (.ok _, fs2, log2) =>
            { st with fs := fs2, log := log2, moved := st.moved + 1 }
      else folderPhase env cfg st root file fp fs1

/-- The walk-level skip of already-organized folders, shared by both
modes. -/
def skipRoot (cfg : OrgConfig) (root : String) : Bool :=
  cfg.settings.exclude_organized_folders &&
    cfg.folder_rules.any (fun r => !r.is_time_based && pyIn r.folder_name root)

/-- Model of FolderOrganizer.create_backup_log: the log directory is
created, and the current operation list is persisted under a
timestamped name (recorded both as a file and in the persisted-backups
ledger). -/
def create_backup_log (env : Env) (s : AppSettings) (st : RunState) : RunState :=
  let fs1 := os_makedirs st.fs s.log_directory
  let log_file := pathJoin s.log_directory ("backup_" ++ env.nowStr ++ ".json")
  { st with
    fs := { fs1 with files := fs1.files.concat (log_file, ⟨env.now, env.now, env.now, "backup"⟩) },
    backups := st.backups ++ [(log_file, st.log)] }

/-- Model of FolderOrganizer.perform_organization over a walk snapshot:
the backup log is written when enabled, then every root (unless
skipped) has its files pushed through the per-file pipeline. -/
def perform_organization (env : Env) (cfg : OrgConfig) (walk : List (String × List String))
    (fs : FSState) : RunState :=
  let st0 : RunState :=
    { fs := fs, log := [], moved := 0, created := [], errors := [], backups := [] }
  let st1 := if cfg.settings.create_backup_log then create_backup_log env cfg.settings st0 else st0
  walk.foldl
    (fun st rf =>
      if skipRoot cfg rf.1 then st
      else rf.2.foldl (fun st file => processFile env cfg st rf.1 file) st)
    st1

/-! ## Dry run -/

/-- The tallies accumulated by a dry run. -/
structure DryAcc where
  files_to_move : List (String × String)
  folders_to_create : List String
deriving DecidableEq

/-- The dry-run report: the tallies plus the sampled first ten planned
moves rendered at the end of the report. -/
structure DryReport where
  files_to_move : List (String × String)
  folders_to_create : List String
  sample_moves : List (String × String)
deriving DecidableEq

/-- The dry-run per-file analysis of generate_dry_run_report: a truthy
filter directive tallies a move to it, otherwise a resolved destination
different from the current root tallies a move and a folder to
create. -/
def dryFile (env : Env) (cfg : OrgConfig) (acc : DryAcc) (fs : FSState) (root file : String) :
    Except String DryAcc × FSState :=
  let fp := pathJoin root file
  if is_excluded env cfg.settings fs file then (.ok acc, fs)
  else
    match apply_filters env true cfg.filter_actions fs fp with
    | (.error e, fs1) => (.error e, fs1)
    | (.ok r, fs1) =>
      if isTruthyOptStr r then
        (.ok { acc with files_to_move := acc.files_to_move ++ [(fp, r.getD "")] }, fs1)
      else
        match get_destination env fs1 cfg.folder_rules cfg.target_folder fp with
        | .error e => (.error e, fs1)
        | .ok none => (.ok acc, fs1)
        | .ok (some d) =>
          if !(d == "") && !(d == root) then
            (.ok { files_to_move := acc.files_to_move ++ [(fp, d)],
                   folders_to_create := insertIfAbsent acc.folders_to_create d }, fs1)
          else (.ok acc, fs1)

/-- The dry-run loop over the files of one root; an exception aborts the
whole report. -/
def dryFiles (env : Env) (cfg : OrgConfig) (root : String) :
    List String → DryAcc → FSState → Except String DryAcc × FSState
  | [], acc, fs => (.ok acc, fs)
  | f :: rest, acc, fs =>
    match dryFile env cfg acc fs root f with
    | (.error e, fs1) => (.error e, fs1)
    | (.ok acc1, fs1) => dryFiles env cfg root rest acc1 fs1

/-- The dry-run loop over the walked roots. -/
def dryWalk (env : Env) (cfg : OrgConfig) :
    List (String × List String) → DryAcc → FSState → Except String DryAcc × FSState
  | [], acc, fs => (.ok acc, fs)
  | rf :: rest, acc, fs =>
    if skipRoot cfg rf.1 then dryWalk env cfg rest acc fs
    else
      match dryFiles env cfg rf.1 rf.2 acc fs with
      | (.error e, fs1) => (.error e, fs1)
      | (.ok acc1, fs1) => dryWalk env cfg rest acc1 fs1

/-- Model of FolderOrganizer.generate_dry_run_report over a walk
snapshot: the tallies are collected and the first ten planned moves are
sampled for the report. -/
def generate_dry_run_report (env : Env) (cfg : OrgConfig) (walk : List (String × List String))
    (fs : FSState) : Except String DryReport × FSState :=
  match dryWalk env cfg walk { files_to_move := [], folders_to_create := [] } fs with
  | (.error e, fs1) => (.error e, fs1)
  | (.ok acc, fs1) =>
    (.ok { files_to_move := acc.files_to_move, folders_to_create := acc.folders_to_create,
           sample_moves := acc.files_to_move.take 10 }, fs1)

/-! ## Spec-side definitions

These definitions follow the wording of the specification, for the
refinement-style claims that compare the code's behaviour against it. -/

/-- The criteria of one filter, given the file's modification time and
its already-lowered extension: extension membership, case-insensitive
name containment, and age in whole days at least the threshold, each
vacuously true when absent. -/
def filterMatchesExt (env : Env) (mt : Int) (filename file_ext : String) (f : FilterAction) :
    Bool :=
  ((f.file_types.isEmpty || f.file_types.contains file_ext) &&
   (f.name_contains == "" || pyIn (lowerStr f.name_contains) (lowerStr filename))) &&
  (!truthyOlder f.older_than_days ||
    !(Int.fdiv (env.now - mt) 86400 < f.older_than_days.getD 0))

/-- The criteria of one filter as the specification words them, at the
file's lowered extension. -/
def filterMatches (env : Env) (mt : Int) (filename : String) (f : FilterAction) : Bool :=
  filterMatchesExt env mt filename (lowerStr (splitext filename).2) f

/-- The five action kinds the configuration editors can produce. -/
def allowedAction (f : FilterAction) : Bool :=
  f.action_type == "delete" || f.action_type == "exclude" || f.action_type == "move" ||
  f.action_type == "move_external" || f.action_type == "rename"

/-- The filter the specification designates: among the satisfying
filters, the one with the highest priority, ties resolved in favour of
the earliest declared. -/
def bestFilter (p : FilterAction → Bool) : List FilterAction → Option FilterAction
  | [] => none
  | f :: rest =>
    match bestFilter p rest with
    | none => if p f then some f else none
    | some b => if p f && decide (b.priority ≤ f.priority) then some f else some b

/-- The outcome the matched filter's action yields, as a standalone map
(the continuation of the dispatch is irrelevant for the five known
action kinds). -/
def actionOutcome (dry_run : Bool) (fs : FSState) (fp filename file_ext : String)
    (f : FilterAction) : Except String (Option String) × FSState :=
  applyActionK dry_run fs fp filename file_ext f (.ok none, fs)

/-- The spec-side matching of one folder rule: a time-based rule always
matches, a regular rule matches on the lowered extension. -/
def specRuleMatches (r : FolderRule) (file_ext : String) : Bool :=
  r.is_time_based || r.file_extensions.contains file_ext

/-- The spec-side segment of a matched folder rule. -/
def specSegment (env : Env) (fs : FSState) (fp : String) (r : FolderRule) :
    Except String String :=
  if r.is_time_based then
    match get_file_date fs fp r.date_source with
    | .error e => .error e
    | .ok ts => .ok (timeFolderName env r ts)
  else .ok r.folder_name

/-- The spec-side choice at one level: the first enabled rule of that
level, in original list order, whose criteria match, yields one
segment. -/
def specLevelSegment (env : Env) (fs : FSState) (fp file_ext : String)
    (rules : List FolderRule) (lv : Nat) : Except String (Option String) :=
  match (rules.filter (fun r => r.hierarchy_level == lv && r.enabled)).find?
      (fun r => specRuleMatches r file_ext) with
  | none => .ok none
  | some r =>
    match specSegment env fs fp r with
    | .error e => .error e
    | .ok seg => .ok (some seg)

/-- The spec-side collection of the matched segments of levels 1-5, in
level order. -/
def specSegments (env : Env) (fs : FSState) (fp file_ext : String)
    (rules : List FolderRule) : List Nat → Except String (List String)
  | [] => .ok []
  | lv :: ls =>
    match specLevelSegment env fs fp file_ext rules lv with
    | .error e => .error e
    | .ok none => specSegments env fs fp file_ext rules ls
    | .ok (some seg) =>
      match specSegments env fs fp file_ext rules ls with
      | .error e => .error e
      | .ok segs => .ok (seg :: segs)

/-- The destination resolution as the specification words it: the
target root with all matched segments appended in level order, or no
destination when no level produced a segment. -/
def specResolve (env : Env) (fs : FSState) (rules : List FolderRule) (target fp : String) :
    Except String (Option String) :=
  let filename := basename fp
  let fe := lowerStr (splitext filename).2
  match specSegments env fs fp fe rules [1, 2, 3, 4, 5] with
  | .error e => .error e
  | .ok [] => .ok none
  | .ok segs => .ok (some (segs.foldl pathJoin target))

/-! ## Concrete fixtures used by the witnesses and counterexamples -/

/-- A concrete run environment. -/
def fEnv : Env :=
  { now := 1000000, nowStr := "TS", cwd := "/cwd",
    fmt := fun f _ => if f == "%b" then "Mar" else "X",
    parseDate := fun _ => none }

/-- Baseline settings: everything off. -/
def fSet : AppSettings :=
  { create_backup_log := false, delete_duplicates := false,
    exclude_organized_folders := false, exclude_before_date := none,
    exclude_files := [], log_directory := "/logs" }

/-- A regular rule sending .txt files to a Docs folder at level 1. -/
def fRuleTxt : FolderRule :=
  { name := "Docs", enabled := true, hierarchy_level := 1, folder_name := "Docs",
    file_extensions := [".txt"], is_time_based := false, time_pattern := "MMM",
    date_source := "modified", icon := "" }

/-- A time-based rule at level 1 on the modification date, month
pattern. -/
def fRuleTime : FolderRule :=
  { name := "Time", enabled := true, hierarchy_level := 1, folder_name := "",
    file_extensions := [], is_time_based := true, time_pattern := "MMM",
    date_source := "modified", icon := "" }

/-- One file doc.txt under the target root. -/
def fFsDoc : FSState :=
  { files := [("/t/doc.txt", ⟨5, 1, 2, "A"⟩)], dirs := ["/t", "/"] }

/-- An always-matching rename filter. -/
def fFiltRen : FilterAction :=
  { name := "ren", enabled := true, file_types := [], name_contains := "",
    older_than_days := none, action_type := "rename", destination := "",
    rename_pattern := "new_{original}", priority := 0 }

/-- An always-matching move filter towards a directory that does not
exist. -/
def fFiltMoveExt : FilterAction :=
  { name := "mv", enabled := true, file_types := [], name_contains := "",
    older_than_days := none, action_type := "move", destination := "/ext/dir",
    rename_pattern := "", priority := 0 }

/-- Configuration of the rename scenario: the rename filter plus the
Docs rule. -/
def fCfgRen : OrgConfig :=
  { target_folder := "/t", folder_rules := [fRuleTxt], filter_actions := [fFiltRen],
    settings := fSet }

/-- Configuration of the backup-log scenario. -/
def fCfgBackup : OrgConfig :=
  { target_folder := "/t", folder_rules := [fRuleTxt], filter_actions := [],
    settings := { fSet with create_backup_log := true } }

/-- Configuration of the filter-move-to-missing-directory scenario. -/
def fCfgMoveExt : OrgConfig :=
  { target_folder := "/t", folder_rules := [], filter_actions := [fFiltMoveExt],
    settings := fSet }

/-- Same-named source and destination files with equal modification
times. -/
def fFsTie : FSState :=
  { files := [("/t/a.txt", ⟨5, 0, 0, "A"⟩), ("/d/a.txt", ⟨5, 0, 0, "B"⟩)],
    dirs := ["/t", "/d", "/"] }

/-- Same-named source (older) and destination (newer) files. -/
def fFsOlder : FSState :=
  { files := [("/t/a.txt", ⟨3, 0, 0, "A"⟩), ("/d/a.txt", ⟨5, 0, 0, "B"⟩)],
    dirs := ["/t", "/d", "/"] }

/-- A low-priority always-matching delete filter, declared first. -/
def fFiltDelLow : FilterAction :=
  { name := "del", enabled := true, file_types := [], name_contains := "",
    older_than_days := none, action_type := "delete", destination := "",
    rename_pattern := "", priority := 1 }

/-- A high-priority always-matching move filter, declared second. -/
def fFiltMoveHigh : FilterAction :=
  { name := "hi", enabled := true, file_types := [], name_contains := "",
    older_than_days := none, action_type := "move", destination := "/high",
    rename_pattern := "", priority := 5 }

/-- Two always-matching move filters sharing one priority, differing in
their destination. -/
def fFiltTieA : FilterAction :=
  { name := "tieA", enabled := true, file_types := [], name_contains := "",
    older_than_days := none, action_type := "move", destination := "/tieA",
    rename_pattern := "", priority := 3 }

/-- The later-declared filter of the tie pair. -/
def fFiltTieB : FilterAction :=
  { fFiltTieA with name := "tieB", destination := "/tieB" }

/-- An always-matching move filter whose destination is the empty
string. -/
def fFiltMoveEmpty : FilterAction :=
  { fFiltMoveExt with destination := "", priority := 9 }

/-- Configuration of the empty-destination scenario: the empty move
filter outprioritizes a delete filter, folder rules still present. -/
def fCfgEmptyDest : OrgConfig :=
  { target_folder := "/t", folder_rules := [fRuleTxt],
    filter_actions := [fFiltMoveEmpty, fFiltDelLow], settings := fSet }

/-- Configuration with only the Docs folder rule. -/
def fCfgRuleOnly : OrgConfig :=
  { target_folder := "/t", folder_rules := [fRuleTxt], filter_actions := [],
    settings := fSet }

/-- Configuration with only the delete filter. -/
def fCfgDel : OrgConfig :=
  { target_folder := "/t", folder_rules := [], filter_actions := [fFiltDelLow],
    settings := fSet }

/-- The Docs rule moved to hierarchy level 2, for composition with the
time rule at level 1. -/
def fRuleTxt2 : FolderRule :=
  { fRuleTxt with hierarchy_level := 2 }

/-- The baseline orchestrator state over the doc.txt snapshot. -/
def fStDoc : RunState :=
  { fs := fFsDoc, log := [], moved := 0, created := [], errors := [], backups := [] }

/-! ## Claim C3 -/

/-- C3: the claim says a matched rename filter renames in place and the
pipeline then resolves and moves the renamed file.  The code instead
continues with the original path: on the concrete rename scenario, the
renamed file stays in the root, the move targets the stale original
path and fails, and nothing arrives under the resolved destination. -/
theorem C3_rename_pipeline_uses_stale_path :
    lookupFile (perform_organization fEnv fCfgRen [("/t", ["doc.txt"])] fFsDoc).fs
      "/t/new_doc.txt" = some ⟨5, 1, 2, "A"⟩ ∧
    lookupFile (perform_organization fEnv fCfgRen [("/t", ["doc.txt"])] fFsDoc).fs
      "/t/Docs/new_doc.txt" = none ∧
    (perform_organization fEnv fCfgRen [("/t", ["doc.txt"])] fFsDoc).moved = 0 ∧
    (perform_organization fEnv fCfgRen [("/t", ["doc.txt"])] fFsDoc).errors =
      ["Error moving doc.txt: No such file: /t/doc.txt"] := by
  decide

/-! ## Claim C4 -/

/-- C4: the claim says the operation log is persisted once at the end
of the run, so the persisted file holds every Moved/Deleted record of
the run.  The code persists it once at the start, before any operation:
on a run that moves one file, the persisted operations list is empty
while the in-memory log holds the Moved record. -/
theorem C4_backup_persisted_before_operations :
    (perform_organization fEnv fCfgBackup [("/t", ["doc.txt"])] fFsDoc).backups.map
      Prod.snd = [[]] ∧
    (perform_organization fEnv fCfgBackup [("/t", ["doc.txt"])] fFsDoc).log =
      ["Moved: /t/doc.txt → /t/Docs/doc.txt"] := by
  decide

/-! ## Claim C5 -/

/-- C5 counterexample: a deduplication deletion leaves the operation
log untouched.  With the source older than the same-named destination
file, the mover deletes the source (a successful applied mutation) and
appends no record. -/
theorem C5_dedup_delete_not_logged :
    (move_file { fSet with delete_duplicates := true } fFsOlder [] "/t/a.txt" "/d").1 =
      .ok () ∧
    (move_file { fSet with delete_duplicates := true } fFsOlder [] "/t/a.txt" "/d").2.2 =
      [] ∧
    lookupFile (move_file { fSet with delete_duplicates := true } fFsOlder []
      "/t/a.txt" "/d").2.1 "/t/a.txt" = none := by
  decide

/-! ## Claim C6 -/

/-- C6 counterexample: with equal modification times the source is not
the older file, so the claim's reading deletes the existing destination
file and moves the source in; the code instead deletes the source and
keeps the destination file untouched. -/
theorem C6_tie_deletes_source :
    lookupFile fFsTie "/t/a.txt" = some ⟨5, 0, 0, "A"⟩ ∧
    lookupFile fFsTie "/d/a.txt" = some ⟨5, 0, 0, "B"⟩ ∧
    lookupFile (move_file { fSet with delete_duplicates := true } fFsTie []
      "/t/a.txt" "/d").2.1 "/d/a.txt" = some ⟨5, 0, 0, "B"⟩ ∧
    lookupFile (move_file { fSet with delete_duplicates := true } fFsTie []
      "/t/a.txt" "/d").2.1 "/t/a.txt" = none := by
  decide

/-! ## Claim C8 -/

/-- C8 counterexample: a move directed by a filter's literal
destination gets no directory creation; on a destination whose
directory does not exist, the move fails for exactly that reason and
the directory is never created. -/
theorem C8_filter_move_missing_dir_fails :
    (perform_organization fEnv fCfgMoveExt [("/t", ["doc.txt"])] fFsDoc).errors =
      ["Error moving doc.txt: No such directory: /ext/dir"] ∧
    (perform_organization fEnv fCfgMoveExt [("/t", ["doc.txt"])] fFsDoc).fs = fFsDoc ∧
    (perform_organization fEnv fCfgMoveExt [("/t", ["doc.txt"])] fFsDoc).moved = 0 := by
  decide

/-! ## Claim C9 -/

/-- C9 counterexample: two configurations differing only in the case of
the configured extension string classify the same file differently, so
configured extensions are not normalized. -/
theorem C9_config_extension_case_sensitive :
    get_destination fEnv fFsDoc
      [{ fRuleTxt with file_extensions := [".TXT"] }] "/t" "/t/doc.txt" = .ok none ∧
    get_destination fEnv fFsDoc [fRuleTxt] "/t" "/t/doc.txt" = .ok (some "/t/Docs") ∧
    ({ fRuleTxt with file_extensions := [".TXT"] } : FolderRule).file_extensions.map
      lowerStr = fRuleTxt.file_extensions := by
  decide

/-! ## Helper lemmas about the filesystem model -/

theorem any_key_of_find? {l : List (String × FileInfo)} {k : String} {x : String × FileInfo}
    (h : l.find? (fun q => q.1 == k) = some x) : l.any (fun q => q.1 == k) = true := by
  rw [List.any_eq_true]
  refine ⟨x, List.mem_of_find?_eq_some h, ?_⟩
  have hp := List.find?_some h
  simpa using hp

theorem find?_key_filter_self {l : List (String × FileInfo)} {k : String} :
    (l.filter (fun q => !(q.1 == k))).find? (fun q => q.1 == k) = none := by
  rw [List.find?_eq_none]
  intro x hx
  have hx2 := (List.mem_filter.mp hx).2
  simp only [Bool.not_eq_true'] at hx2
  simp [hx2]

theorem find?_key_filter_ne {l : List (String × FileInfo)} {k j : String} (h : k ≠ j) :
    (l.filter (fun q => !(q.1 == j))).find? (fun q => q.1 == k) =
      l.find? (fun q => q.1 == k) := by
  induction l with
  | nil => rfl
  | cons a tl ih =>
    rw [List.filter_cons]
    by_cases hj : (a.1 == j) = true
    · have hk : (a.1 == k) = false := by
        rw [beq_eq_false_iff_ne]
        intro hkk
        exact h (by rw [← hkk, beq_iff_eq.mp hj])
      simp [hj, hk, ih, List.find?_cons]
    · simp only [Bool.not_eq_true] at hj
      by_cases hk : (a.1 == k) = true
      · simp [hj, hk, List.find?_cons]
      · simp [hj, hk, ih, List.find?_cons]

theorem find?_append_of_none {l₁ l₂ : List (String × FileInfo)}
    {p : String × FileInfo → Bool} (h : l₁.find? p = none) :
    (l₁ ++ l₂).find? p = l₂.find? p := by
  simp [List.find?_append, h]

theorem lookupFile_as_find? {fs : FSState} {k : String} {fi : FileInfo}
    (h : lookupFile fs k = some fi) :
    ∃ x, fs.files.find? (fun q => q.1 == k) = some x ∧ x.2 = fi ∧ x.1 = k := by
  unfold lookupFile at h
  cases hf : fs.files.find? (fun q => q.1 == k) with
  | none => rw [hf] at h; exact absurd h (by simp)
  | some x =>
    rw [hf] at h
    simp only [Option.map_some'] at h
    refine ⟨x, rfl, Option.some.inj h, ?_⟩
    have hp := List.find?_some hf
    simpa using hp

/-! ## Claim C5, amended -/

/-- C5 amended: a successful move_file call either completed a move and
appended the corresponding Moved record, or it hit the
dedup-with-collision case, in which the silent deletion leaves the log
unchanged; and the orchestrator\'s filter-directed delete branch appends
its Deleted record. -/
theorem C5_mutation_logging :
    (∀ (s : AppSettings) (fs : FSState) (log : List String) (src dest_dir : String),
      (move_file s fs log src dest_dir).1 = .ok () →
      (∃ dp, (move_file s fs log src dest_dir).2.2 =
          log ++ ["Moved: " ++ src ++ " → " ++ dp]) ∨
      ((move_file s fs log src dest_dir).2.2 = log ∧ s.delete_duplicates = true ∧
        path_exists fs (pathJoin dest_dir (basename src)) = true)) ∧
    (∀ (env : Env) (cfg : OrgConfig) (st : RunState) (root file : String)
        (fs1 fs2 : FSState),
      is_excluded env cfg.settings st.fs file = false →
      apply_filters env false cfg.filter_actions st.fs (pathJoin root file) =
        (.ok (some "DELETE"), fs1) →
      os_remove fs1 (pathJoin root file) = .ok fs2 →
      processFile env cfg st root file =
        { st with fs := fs2, log := st.log ++ ["Deleted: " ++ pathJoin root file] }) := by
  constructor
  · intro s fs log src dest_dir h
    rcases hmf : move_file s fs log src dest_dir with ⟨r1, fs2, log2⟩
    have hr : r1 = Except.ok () := by rw [hmf] at h; exact h
    simp only [move_file] at hmf
    split at hmf
    case isTrue hex =>
      split at hmf
      case isTrue hdd =>
        split at hmf
        case h_1 e hgm =>
          injection hmf with h1 h23
          rw [← h1] at hr
          exact Except.noConfusion hr
        case h_2 ms hgm =>
          split at hmf
          case h_1 e hgm2 =>
            injection hmf with h1 h23
            rw [← h1] at hr
            exact Except.noConfusion hr
          case h_2 md hgm2 =>
            split at hmf
            case isTrue hlt =>
              split at hmf
              case h_1 e hrm =>
                injection hmf with h1 h23
                rw [← h1] at hr
                exact Except.noConfusion hr
              case h_2 fsa hrm =>
                split at hmf
                case h_1 e hmv =>
                  injection hmf with h1 h23
                  rw [← h1] at hr
                  exact Except.noConfusion hr
                case h_2 fsb hmv =>
                  injection hmf with h1 h23
                  injection h23 with h2 h3
                  exact Or.inl ⟨_, h3.symm⟩
            case isFalse hlt =>
              split at hmf
              case h_1 e hrm =>
                injection hmf with h1 h23
                rw [← h1] at hr
                exact Except.noConfusion hr
              case h_2 fsa hrm =>
                injection hmf with h1 h23
                injection h23 with h2 h3
                exact Or.inr ⟨h3.symm, hdd, hex⟩
      case isFalse hdd =>
        split at hmf
        case h_1 e hmv =>
          injection hmf with h1 h23
          rw [← h1] at hr
          exact Except.noConfusion hr
        case h_2 fsb hmv =>
          injection hmf with h1 h23
          injection h23 with h2 h3
          exact Or.inl ⟨_, h3.symm⟩
    case isFalse hex =>
      split at hmf
      case h_1 e hmv =>
        injection hmf with h1 h23
        rw [← h1] at hr
        exact Except.noConfusion hr
      case h_2 fsb hmv =>
        injection hmf with h1 h23
        injection h23 with h2 h3
        exact Or.inl ⟨_, h3.symm⟩
  · intro env cfg st root file fs1 fs2 hexc happ hrm
    simp only [processFile, hexc, Bool.false_eq_true, if_false, happ, hrm]
    rfl

/-- C5 amended, witnessed: a dedup deletion on the concrete
older-source snapshot satisfies the unlogged branch, and the concrete
delete filter run appends its Deleted record. -/
theorem C5_mutation_logging_witness :
    ((∃ dp, (move_file { fSet with delete_duplicates := true } fFsOlder []
        "/t/a.txt" "/d").2.2 = [] ++ ["Moved: " ++ "/t/a.txt" ++ " → " ++ dp]) ∨
      ((move_file { fSet with delete_duplicates := true } fFsOlder []
        "/t/a.txt" "/d").2.2 = [] ∧
        ({ fSet with delete_duplicates := true } : AppSettings).delete_duplicates = true ∧
        path_exists fFsOlder (pathJoin "/d" (basename "/t/a.txt")) = true)) ∧
    processFile fEnv fCfgDel fStDoc "/t" "doc.txt" =
      { fStDoc with fs := ⟨[], ["/t", "/"]⟩,
                    log := fStDoc.log ++ ["Deleted: " ++ pathJoin "/t" "doc.txt"] } :=
  ⟨C5_mutation_logging.1 _ _ _ _ _ (by decide),
   C5_mutation_logging.2 fEnv fCfgDel fStDoc "/t" "doc.txt" fFsDoc ⟨[], ["/t", "/"]⟩
     (by decide) (by decide) (by decide)⟩

/-! ## Claim C6, amended -/

/-- C6 amended: on a dedup collision the mover deletes the source and
aborts whenever the source is not strictly newer (older or equal
timestamps), and deletes the destination file and moves the source in
exactly when the source is strictly newer. -/
theorem C6_dedup_keeps_strictly_newer :
    ∀ (s : AppSettings) (fs : FSState) (log : List String) (src dest_dir : String)
      (si di : FileInfo),
      s.delete_duplicates = true →
      lookupFile fs src = some si →
      lookupFile fs (pathJoin dest_dir (basename src)) = some di →
      src ≠ pathJoin dest_dir (basename src) →
      fs.dirs.contains (dirname (pathJoin dest_dir (basename src))) = true →
      (move_file s fs log src dest_dir).1 = .ok () ∧
      (di.mtime < si.mtime →
        lookupFile (move_file s fs log src dest_dir).2.1
          (pathJoin dest_dir (basename src)) = some si ∧
        lookupFile (move_file s fs log src dest_dir).2.1 src = none ∧
        (move_file s fs log src dest_dir).2.2 =
          log ++ ["Moved: " ++ src ++ " → " ++ pathJoin dest_dir (basename src)]) ∧
      (¬ di.mtime < si.mtime →
        lookupFile (move_file s fs log src dest_dir).2.1
          (pathJoin dest_dir (basename src)) = some di ∧
        lookupFile (move_file s fs log src dest_dir).2.1 src = none ∧
        (move_file s fs log src dest_dir).2.2 = log) := by
  intro s fs log src dest_dir si di hdd hsrc hdst hne hdir
  obtain ⟨xs, hxs, hxs2, hxs1⟩ := lookupFile_as_find? hsrc
  obtain ⟨xd, hxd, hxd2, hxd1⟩ := lookupFile_as_find? hdst
  have hexist : path_exists fs (pathJoin dest_dir (basename src)) = true := by
    unfold path_exists
    rw [any_key_of_find? hxd]
    rfl
  have hms : getmtime fs src = .ok si.mtime := by
    unfold getmtime
    rw [hsrc]
  have hmd : getmtime fs (pathJoin dest_dir (basename src)) = .ok di.mtime := by
    unfold getmtime
    rw [hdst]
  have hanyd : fs.files.any (fun q => q.1 == pathJoin dest_dir (basename src)) = true :=
    any_key_of_find? hxd
  have hanys : fs.files.any (fun q => q.1 == src) = true := any_key_of_find? hxs
  by_cases hlt : di.mtime < si.mtime
  · -- the source is strictly newer: destination removed, source moved in
    have hrm : os_remove fs (pathJoin dest_dir (basename src)) =
        .ok { fs with files := fs.files.filter (fun q => !(q.1 == pathJoin dest_dir (basename src))) } := by
      unfold os_remove
      rw [hanyd]
      rfl
    have hlk1 : lookupFile
        { fs with files := fs.files.filter (fun q => !(q.1 == pathJoin dest_dir (basename src))) } src = some si := by
      unfold lookupFile
      rw [find?_key_filter_ne hne, hxs]
      simp only [Option.map_some']
      rw [hxs2]
    have hmv : shutil_move
        { fs with files := fs.files.filter (fun q => !(q.1 == pathJoin dest_dir (basename src))) } src
        (pathJoin dest_dir (basename src)) =
        .ok { fs with files := (((fs.files.filter (fun q => !(q.1 == pathJoin dest_dir (basename src)))).filter (fun q => !(q.1 == src))).filter (fun q => !(q.1 == pathJoin dest_dir (basename src)))).concat (pathJoin dest_dir (basename src), si) } := by
      unfold shutil_move
      rw [hlk1, hdir]
      rfl
    have hres : move_file s fs log src dest_dir =
        (.ok (), { fs with files := (((fs.files.filter (fun q => !(q.1 == pathJoin dest_dir (basename src)))).filter (fun q => !(q.1 == src))).filter (fun q => !(q.1 == pathJoin dest_dir (basename src)))).concat (pathJoin dest_dir (basename src), si) },
          log ++ ["Moved: " ++ src ++ " → " ++ pathJoin dest_dir (basename src)]) := by
      simp only [move_file, hexist, hdd, hms, hmd, hrm, hmv]
      simp [hlt]
    refine ⟨by rw [hres], fun _ => ⟨?_, ?_, by rw [hres]⟩, fun hn => absurd hlt hn⟩
    · rw [hres]
      unfold lookupFile
      simp only [List.concat_eq_append]
      rw [find?_append_of_none find?_key_filter_self]
      simp
    · rw [hres]
      unfold lookupFile
      simp only [List.concat_eq_append]
      have h1 : (((fs.files.filter (fun q => !(q.1 == pathJoin dest_dir (basename src)))).filter (fun q => !(q.1 == src))).filter (fun q => !(q.1 == pathJoin dest_dir (basename src)))).find? (fun q => q.1 == src) = none := by
        rw [find?_key_filter_ne hne]
        exact find?_key_filter_self
      rw [find?_append_of_none h1]
      have hps : (pathJoin dest_dir (basename src) == src) = false := by
        rw [beq_eq_false_iff_ne]
        exact fun hh => hne hh.symm
      simp [List.find?, hps]
  · -- the source is not strictly newer: source removed, move aborted
    have hrm : os_remove fs src =
        .ok { fs with files := fs.files.filter (fun q => !(q.1 == src)) } := by
      unfold os_remove
      rw [hanys]
      rfl
    have hres : move_file s fs log src dest_dir =
        (.ok (), { fs with files := fs.files.filter (fun q => !(q.1 == src)) }, log) := by
      simp only [move_file, hexist, hdd, hms, hmd, hrm]
      simp [hlt]
    refine ⟨by rw [hres], fun hl => absurd hl hlt, fun _ => ⟨?_, ?_, by rw [hres]⟩⟩
    · rw [hres]
      unfold lookupFile
      rw [find?_key_filter_ne (fun hh => hne hh.symm), hxd]
      simp only [Option.map_some']
      rw [hxd2]
    · rw [hres]
      unfold lookupFile
      rw [find?_key_filter_self]
      rfl

/-- C6 amended, witnessed on the spec\'s own dedup-by-newest example:
source A strictly older than destination B, afterwards only B remains
and A is gone, with nothing logged. -/
theorem C6_dedup_keeps_strictly_newer_witness :
    (move_file { fSet with delete_duplicates := true } fFsOlder [] "/t/a.txt" "/d").1 =
      .ok () ∧
    lookupFile (move_file { fSet with delete_duplicates := true } fFsOlder []
      "/t/a.txt" "/d").2.1 (pathJoin "/d" (basename "/t/a.txt")) = some ⟨5, 0, 0, "B"⟩ ∧
    lookupFile (move_file { fSet with delete_duplicates := true } fFsOlder []
      "/t/a.txt" "/d").2.1 "/t/a.txt" = none := by
  have h := C6_dedup_keeps_strictly_newer { fSet with delete_duplicates := true } fFsOlder
    [] "/t/a.txt" "/d" ⟨3, 0, 0, "A"⟩ ⟨5, 0, 0, "B"⟩ (by decide) (by decide) (by decide)
    (by decide) (by decide)
  exact ⟨h.1, (h.2.2 (by decide)).1, (h.2.2 (by decide)).2.1⟩

/-! ## Claim C8, amended -/

theorem ancestorsOf_self_mem (n : Nat) (p : String) : p ∈ ancestorsOf n p := by
  cases n with
  | zero => simp [ancestorsOf]
  | succ n =>
    simp only [ancestorsOf]
    split <;> simp

theorem contains_append_strs (l₁ l₂ : List String) (x : String) :
    (l₁ ++ l₂).contains x = (l₁.contains x || l₂.contains x) := by
  simp [List.contains_eq_any_beq]

/-- C8 amended: a move directed by folder-rule destination resolution
has its destination directory created (when missing) before the move,
so the move completes with no error recorded; the counterexample shows
filter-directed moves get no such creation. -/
theorem C8_folder_rule_moves_create_dir :
    ∀ (env : Env) (cfg : OrgConfig) (st : RunState) (root file : String) (r : Option String)
      (fs1 : FSState) (d : String) (fi : FileInfo),
      is_excluded env cfg.settings st.fs file = false →
      apply_filters env false cfg.filter_actions st.fs (pathJoin root file) = (.ok r, fs1) →
      isTruthyOptStr r = false →
      get_destination env fs1 cfg.folder_rules cfg.target_folder (pathJoin root file) =
        .ok (some d) →
      (d == "") = false →
      (d == root) = false →
      lookupFile fs1 (pathJoin root file) = some fi →
      dirname (pathJoin d (basename (pathJoin root file))) = d →
      path_exists fs1 (pathJoin d (basename (pathJoin root file))) = false →
      (ancestorsOf d.length d).contains (pathJoin d (basename (pathJoin root file))) = false →
      (path_exists fs1 d = false ∨ fs1.dirs.contains d = true) →
      (processFile env cfg st root file).errors = st.errors ∧
      (processFile env cfg st root file).fs.dirs.contains d = true ∧
      lookupFile (processFile env cfg st root file).fs
        (pathJoin d (basename (pathJoin root file))) = some fi ∧
      (processFile env cfg st root file).moved = st.moved + 1 := by
  intro env cfg st root file r fs1 d fi hexc happ htr hdest hd1 hd2 hlk hdir hnp hanc hdisj
  have hstep : processFile env cfg st root file =
      folderPhase env cfg st root file (pathJoin root file) fs1 := by
    simp only [processFile, hexc, Bool.false_eq_true, if_false, happ, htr]
  -- the state in which the move runs, after the conditional makedirs
  rcases hpe : path_exists fs1 d with _ | _
  · -- the directory is missing and gets created
    have hfs2files : (os_makedirs fs1 d).files = fs1.files := rfl
    have hcontig : (os_makedirs fs1 d).dirs.contains d = true := by
      show (fs1.dirs ++ ancestorsOf d.length d).contains d = true
      rw [contains_append_strs]
      have hmem : (ancestorsOf d.length d).contains d = true :=
        List.elem_eq_true_of_mem (ancestorsOf_self_mem d.length d)
      rw [hmem]
      simp
    have hnp2 : path_exists (os_makedirs fs1 d)
        (pathJoin d (basename (pathJoin root file))) = false := by
      unfold path_exists at hnp ⊢
      rw [Bool.or_eq_false_iff] at hnp
      show (fs1.files.any _ || (fs1.dirs ++ ancestorsOf d.length d).contains _) = false
      rw [contains_append_strs, hnp.1, hnp.2, hanc]
      rfl
    have hmv : shutil_move (os_makedirs fs1 d) (pathJoin root file)
        (pathJoin d (basename (pathJoin root file))) =
        .ok { os_makedirs fs1 d with files := (((os_makedirs fs1 d).files.filter (fun q => !(q.1 == pathJoin root file))).filter (fun q => !(q.1 == pathJoin d (basename (pathJoin root file))))).concat (pathJoin d (basename (pathJoin root file)), fi) } := by
      unfold shutil_move
      have hlk2 : lookupFile (os_makedirs fs1 d) (pathJoin root file) = some fi := hlk
      rw [hlk2, hdir, hcontig]
      rfl
    have hmf : move_file cfg.settings (os_makedirs fs1 d) st.log (pathJoin root file) d =
        (.ok (), { os_makedirs fs1 d with files := (((os_makedirs fs1 d).files.filter (fun q => !(q.1 == pathJoin root file))).filter (fun q => !(q.1 == pathJoin d (basename (pathJoin root file))))).concat (pathJoin d (basename (pathJoin root file)), fi) },
          st.log ++ ["Moved: " ++ pathJoin root file ++ " → " ++
            pathJoin d (basename (pathJoin root file))]) := by
      simp only [move_file, hnp2, Bool.false_eq_true, if_false, hmv]
    have hph : folderPhase env cfg st root file (pathJoin root file) fs1 =
        { st with
          fs := { os_makedirs fs1 d with files := (((os_makedirs fs1 d).files.filter (fun q => !(q.1 == pathJoin root file))).filter (fun q => !(q.1 == pathJoin d (basename (pathJoin root file))))).concat (pathJoin d (basename (pathJoin root file)), fi) },
          log := st.log ++ ["Moved: " ++ pathJoin root file ++ " → " ++
            pathJoin d (basename (pathJoin root file))],
          created := insertIfAbsent st.created d,
          moved := st.moved + 1 } := by
      simp only [folderPhase, hdest, hd1, hd2, Bool.not_false, Bool.and_self, if_true,
        hpe, Bool.false_eq_true, if_false, hmf]
    rw [hstep, hph]
    refine ⟨rfl, hcontig, ?_, rfl⟩
    unfold lookupFile
    simp only [List.concat_eq_append]
    rw [find?_append_of_none find?_key_filter_self]
    simp
  · -- the directory already exists
    have hcont : fs1.dirs.contains d = true := by
      rcases hdisj with hcase | hcase
      · rw [hpe] at hcase; exact absurd hcase (by simp)
      · exact hcase
    have hmv : shutil_move fs1 (pathJoin root file)
        (pathJoin d (basename (pathJoin root file))) =
        .ok { fs1 with files := ((fs1.files.filter (fun q => !(q.1 == pathJoin root file))).filter (fun q => !(q.1 == pathJoin d (basename (pathJoin root file))))).concat (pathJoin d (basename (pathJoin root file)), fi) } := by
      unfold shutil_move
      rw [hlk, hdir, hcont]
      rfl
    have hmf : move_file cfg.settings fs1 st.log (pathJoin root file) d =
        (.ok (), { fs1 with files := ((fs1.files.filter (fun q => !(q.1 == pathJoin root file))).filter (fun q => !(q.1 == pathJoin d (basename (pathJoin root file))))).concat (pathJoin d (basename (pathJoin root file)), fi) },
          st.log ++ ["Moved: " ++ pathJoin root file ++ " → " ++
            pathJoin d (basename (pathJoin root file))]) := by
      simp only [move_file, hnp, Bool.false_eq_true, if_false, hmv]
    have hph : folderPhase env cfg st root file (pathJoin root file) fs1 =
        { st with
          fs := { fs1 with files := ((fs1.files.filter (fun q => !(q.1 == pathJoin root file))).filter (fun q => !(q.1 == pathJoin d (basename (pathJoin root file))))).concat (pathJoin d (basename (pathJoin root file)), fi) },
          log := st.log ++ ["Moved: " ++ pathJoin root file ++ " → " ++
            pathJoin d (basename (pathJoin root file))],
          created := st.created,
          moved := st.moved + 1 } := by
      simp only [folderPhase, hdest, hd1, hd2, Bool.not_false, Bool.and_self, if_true,
        hpe, if_true, hmf]
    rw [hstep, hph]
    refine ⟨rfl, hcont, ?_, rfl⟩
    unfold lookupFile
    simp only [List.concat_eq_append]
    rw [find?_append_of_none find?_key_filter_self]
    simp

/-- C8 amended, witnessed on the concrete folder-rule run: the Docs
directory is created before the move and the move completes without an
error. -/
theorem C8_folder_rule_moves_create_dir_witness :
    (processFile fEnv fCfgRuleOnly fStDoc "/t" "doc.txt").errors = fStDoc.errors ∧
    (processFile fEnv fCfgRuleOnly fStDoc "/t" "doc.txt").fs.dirs.contains "/t/Docs" = true ∧
    lookupFile (processFile fEnv fCfgRuleOnly fStDoc "/t" "doc.txt").fs
      (pathJoin "/t/Docs" (basename (pathJoin "/t" "doc.txt"))) = some ⟨5, 1, 2, "A"⟩ ∧
    (processFile fEnv fCfgRuleOnly fStDoc "/t" "doc.txt").moved = fStDoc.moved + 1 :=
  C8_folder_rule_moves_create_dir fEnv fCfgRuleOnly fStDoc "/t" "doc.txt" none fFsDoc
    "/t/Docs" ⟨5, 1, 2, "A"⟩ (by decide) (by decide) (by decide) (by decide) (by decide)
    (by decide) (by decide) (by decide) (by decide) (by decide) (Or.inl (by decide))

/-! ## Claim C7 -/

theorem applyActionK_dry_snd (fs : FSState) (fp fn fe : String) (f : FilterAction)
    (k : Except String (Option String) × FSState) (hk : k.2 = fs) :
    (applyActionK true fs fp fn fe f k).2 = fs := by
  simp only [applyActionK]
  repeat' split
  all_goals first | rfl | exact hk | simp_all

theorem applyFiltersGo_dry_snd (env : Env) (fs : FSState) (fp fn fe : String) :
    ∀ l : List FilterAction, (applyFiltersGo env true fs fp fn fe l).2 = fs := by
  intro l
  induction l with
  | nil => rfl
  | cons f rest ih =>
    simp only [applyFiltersGo]
    split
    · exact ih
    · split
      · split
        · rfl
        · split
          · exact ih
          · exact applyActionK_dry_snd fs fp fn fe f _ ih
      · split
        · exact applyActionK_dry_snd fs fp fn fe f _ ih
        · exact ih

theorem apply_filters_dry_snd (env : Env) (fas : List FilterAction) (fs : FSState)
    (fp : String) : (apply_filters env true fas fs fp).2 = fs :=
  applyFiltersGo_dry_snd env fs fp (basename fp) (lowerStr (splitext (basename fp)).2)
    (sortFiltersDesc fas)

theorem dryFile_snd (env : Env) (cfg : OrgConfig) (acc : DryAcc) (fs : FSState)
    (root f : String) : (dryFile env cfg acc fs root f).2 = fs := by
  have h2 := apply_filters_dry_snd env cfg.filter_actions fs (pathJoin root f)
  simp only [dryFile]
  split
  · rfl
  · split
    case h_1 e fs1 heq =>
      rw [heq] at h2
      exact h2
    case h_2 r0 fs1 heq =>
      rw [heq] at h2
      split
      · exact h2
      · split
        · exact h2
        · exact h2
        · split
          · exact h2
          · exact h2

theorem dryFiles_snd (env : Env) (cfg : OrgConfig) (root : String) :
    ∀ (l : List String) (acc : DryAcc) (fs : FSState),
      (dryFiles env cfg root l acc fs).2 = fs := by
  intro l
  induction l with
  | nil => intro acc fs; rfl
  | cons f rest ih =>
    intro acc fs
    have h2 := dryFile_snd env cfg acc fs root f
    simp only [dryFiles]
    split
    case h_1 e fs1 heq =>
      rw [heq] at h2
      exact h2
    case h_2 acc1 fs1 heq =>
      rw [heq] at h2
      have h3 : fs1 = fs := h2
      rw [h3]
      exact ih _ _

theorem dryWalk_snd (env : Env) (cfg : OrgConfig) :
    ∀ (walk : List (String × List String)) (acc : DryAcc) (fs : FSState),
      (dryWalk env cfg walk acc fs).2 = fs := by
  intro walk
  induction walk with
  | nil => intro acc fs; rfl
  | cons rf rest ih =>
    intro acc fs
    simp only [dryWalk]
    split
    · exact ih _ _
    · have h2 := dryFiles_snd env cfg rf.1 rf.2 acc fs
      split
      case h_1 e fs1 heq =>
        rw [heq] at h2
        exact h2
      case h_2 acc1 fs1 heq =>
        rw [heq] at h2
        have h3 : fs1 = fs := h2
        rw [h3]
        exact ih _ _

/-- C7: a dry run mutates nothing — the filesystem component of the
result equals the input snapshot for every configuration, every walk
and every starting state, including runs that abort with an error —
and the report samples exactly the first ten planned moves. -/
theorem C7_dry_run_is_pure :
    ∀ (env : Env) (cfg : OrgConfig) (walk : List (String × List String)) (fs : FSState),
      (generate_dry_run_report env cfg walk fs).2 = fs ∧
      ∀ rep, (generate_dry_run_report env cfg walk fs).1 = .ok rep →
        rep.sample_moves = rep.files_to_move.take 10 := by
  intro env cfg walk fs
  have hsnd := dryWalk_snd env cfg walk { files_to_move := [], folders_to_create := [] } fs
  constructor
  · simp only [generate_dry_run_report]
    split
    case h_1 e fs1 heq =>
      rw [heq] at hsnd
      exact hsnd
    case h_2 acc fs1 heq =>
      rw [heq] at hsnd
      exact hsnd
  · intro rep hrep
    simp only [generate_dry_run_report] at hrep
    split at hrep
    case h_1 e fs1 heq => exact absurd hrep (by simp)
    case h_2 acc fs1 heq =>
      have h3 := Except.ok.inj hrep
      rw [← h3]

/-- C7, witnessed on the concrete rename-filter configuration: the dry
run leaves the snapshot untouched and the sample equals the first ten
planned moves. -/
theorem C7_dry_run_is_pure_witness :
    (generate_dry_run_report fEnv fCfgRen [("/t", ["doc.txt"])] fFsDoc).2 = fFsDoc ∧
    (⟨[("/t/doc.txt", "/t/Docs")], ["/t/Docs"], [("/t/doc.txt", "/t/Docs")]⟩ :
      DryReport).sample_moves =
      (⟨[("/t/doc.txt", "/t/Docs")], ["/t/Docs"], [("/t/doc.txt", "/t/Docs")]⟩ :
        DryReport).files_to_move.take 10 :=
  ⟨(C7_dry_run_is_pure fEnv fCfgRen [("/t", ["doc.txt"])] fFsDoc).1,
   (C7_dry_run_is_pure fEnv fCfgRen [("/t", ["doc.txt"])] fFsDoc).2 _ (by decide)⟩

/-! ## Claim C1: the filter engine's priority semantics -/

theorem mem_insertFilterDesc {b f : FilterAction} {l : List FilterAction} :
    b ∈ insertFilterDesc f l ↔ b = f ∨ b ∈ l := by
  induction l with
  | nil => simp [insertFilterDesc]
  | cons g gs ih =>
    simp only [insertFilterDesc]
    split
    · simp [List.mem_cons]
    · simp only [List.mem_cons, ih]
      tauto

theorem pairwise_insertFilterDesc {f : FilterAction} {l : List FilterAction}
    (h : l.Pairwise (fun a b => b.priority ≤ a.priority)) :
    (insertFilterDesc f l).Pairwise (fun a b => b.priority ≤ a.priority) := by
  induction l with
  | nil => simp [insertFilterDesc]
  | cons g gs ih =>
    rcases List.pairwise_cons.mp h with ⟨hg, hgs⟩
    simp only [insertFilterDesc]
    split
    case isTrue hle =>
      refine List.pairwise_cons.mpr ⟨?_, h⟩
      intro b hb
      rcases List.mem_cons.mp hb with rfl | hb2
      · exact hle
      · exact le_trans (hg b hb2) hle
    case isFalse hgt =>
      refine List.pairwise_cons.mpr ⟨?_, ih hgs⟩
      intro b hb
      rcases mem_insertFilterDesc.mp hb with rfl | hb2
      · exact le_of_lt (lt_of_not_le hgt)
      · exact hg b hb2

theorem pairwise_sortFiltersDesc (l : List FilterAction) :
    (sortFiltersDesc l).Pairwise (fun a b => b.priority ≤ a.priority) := by
  induction l with
  | nil => simp [sortFiltersDesc]
  | cons f fs ih => exact pairwise_insertFilterDesc ih

theorem mem_sortFiltersDesc {b : FilterAction} {l : List FilterAction} :
    b ∈ sortFiltersDesc l ↔ b ∈ l := by
  induction l with
  | nil => simp [sortFiltersDesc]
  | cons f fs ih =>
    simp only [sortFiltersDesc, mem_insertFilterDesc, ih, List.mem_cons]

theorem find?_insertFilterDesc (q : FilterAction → Bool) {f : FilterAction}
    {s : List FilterAction} (hs : s.Pairwise (fun a b => b.priority ≤ a.priority)) :
    (insertFilterDesc f s).find? q =
      match s.find? q with
      | none => if q f then some f else none
      | some b => if q f && decide (b.priority ≤ f.priority) then some f else some b := by
  induction s with
  | nil => simp [insertFilterDesc, List.find?_singleton]
  | cons g gs ih =>
    rcases List.pairwise_cons.mp hs with ⟨hg, hgs⟩
    simp only [insertFilterDesc]
    split
    case isTrue hle =>
      by_cases hqf : q f = true
      · rw [List.find?_cons_of_pos _ hqf]
        cases hfind : (g :: gs).find? q with
        | none => simp [hqf]
        | some b =>
          have hb : b.priority ≤ g.priority := by
            rcases List.mem_cons.mp (List.mem_of_find?_eq_some hfind) with rfl | hmem2
            · exact le_refl _
            · exact hg b hmem2
          have hcond : (q f && decide (b.priority ≤ f.priority)) = true := by
            rw [hqf, Bool.true_and, decide_eq_true_eq]
            exact le_trans hb hle
          simp [hcond]
      · rw [List.find?_cons_of_neg _ (by simp [hqf])]
        cases hfind : (g :: gs).find? q with
        | none => simp [hfind, hqf]
        | some b => simp [hfind, hqf]
    case isFalse hgt =>
      by_cases hqg : q g = true
      · rw [List.find?_cons_of_pos _ hqg]
        have hsc : (g :: gs).find? q = some g := List.find?_cons_of_pos _ hqg
        rw [hsc]
        have hdec : decide (g.priority ≤ f.priority) = false := decide_eq_false hgt
        simp [hdec]
      · have hL : (g :: insertFilterDesc f gs).find? q = (insertFilterDesc f gs).find? q :=
          List.find?_cons_of_neg _ (by simp [hqg])
        have hR : (g :: gs).find? q = gs.find? q :=
          List.find?_cons_of_neg _ (by simp [hqg])
        rw [hL, ih hgs, hR]

theorem find?_sortFiltersDesc (q : FilterAction → Bool) (l : List FilterAction) :
    (sortFiltersDesc l).find? q = bestFilter q l := by
  induction l with
  | nil => rfl
  | cons f fs ih =>
    simp only [sortFiltersDesc, bestFilter]
    rw [find?_insertFilterDesc q (pairwise_sortFiltersDesc fs), ih]

theorem applyActionK_of_allowed {f : FilterAction} (h : allowedAction f = true)
    (dry : Bool) (fs : FSState) (fp fn fe : String)
    (k k' : Except String (Option String) × FSState) :
    applyActionK dry fs fp fn fe f k = applyActionK dry fs fp fn fe f k' := by
  simp only [applyActionK]
  repeat' split
  any_goals rfl
  all_goals (simp only [allowedAction] at h; simp_all)

theorem applyFiltersGo_eq_find (env : Env) (dry : Bool) (fs : FSState) (fp fn fe : String)
    (mt : Int) (hmt : getmtime fs fp = .ok mt) :
    ∀ l : List FilterAction, (∀ f ∈ l, allowedAction f = true) →
      applyFiltersGo env dry fs fp fn fe l =
        match l.find? (fun f => f.enabled && filterMatchesExt env mt fn fe f) with
        | none => (.ok none, fs)
        | some f => actionOutcome dry fs fp fn fe f := by
  intro l
  induction l with
  | nil => intro _; rfl
  | cons f rest ih =>
    intro hall
    have hf := hall f (List.mem_cons_self f rest)
    have hrest : ∀ g ∈ rest, allowedAction g = true :=
      fun g hg => hall g (List.mem_cons_of_mem f hg)
    simp only [applyFiltersGo]
    by_cases hen : f.enabled = true
    · rw [if_neg (by simp [hen])]
      by_cases hm2 : ((f.file_types.isEmpty || f.file_types.contains fe) &&
          (f.name_contains == "" || pyIn (lowerStr f.name_contains) (lowerStr fn))) = true
      · by_cases htr : truthyOlder f.older_than_days = true
        · rw [if_pos (by rw [hm2, htr]; rfl)]
          simp only [hmt]
          by_cases hage2 : Int.fdiv (env.now - mt) 86400 < f.older_than_days.getD 0
          · rw [if_pos hage2, ih hrest]
            have hpred : (f.enabled && filterMatchesExt env mt fn fe f) = false := by
              simp only [filterMatchesExt, hen, Bool.true_and, hm2, htr, Bool.true_or,
                Bool.not_true, Bool.false_or, decide_eq_true_eq]
              simp [htr, hage2]
            have hfind : List.find? (fun g => g.enabled && filterMatchesExt env mt fn fe g)
                (f :: rest) =
                List.find? (fun g => g.enabled && filterMatchesExt env mt fn fe g) rest :=
              List.find?_cons_of_neg rest (by simp [hpred])
            rw [hfind]
          · rw [if_neg hage2]
            have hpred : (f.enabled && filterMatchesExt env mt fn fe f) = true := by
              simp only [filterMatchesExt, hen, Bool.true_and, hm2]
              simp [hage2]
            have hfind : List.find? (fun g => g.enabled && filterMatchesExt env mt fn fe g)
                (f :: rest) = some f := List.find?_cons_of_pos rest hpred
            rw [hfind]
            exact applyActionK_of_allowed hf dry fs fp fn fe _ _
        · have htr2 : truthyOlder f.older_than_days = false :=
            Bool.not_eq_true _ ▸ (Bool.eq_false_iff.mpr htr)
          rw [if_neg (by rw [htr2]; simp), if_pos hm2]
          have hpred : (f.enabled && filterMatchesExt env mt fn fe f) = true := by
            simp only [filterMatchesExt, hen, Bool.true_and, hm2, htr2]
            simp
          have hfind : List.find? (fun g => g.enabled && filterMatchesExt env mt fn fe g)
              (f :: rest) = some f := List.find?_cons_of_pos rest hpred
          rw [hfind]
          exact applyActionK_of_allowed hf dry fs fp fn fe _ _
      · have hm2f : ((f.file_types.isEmpty || f.file_types.contains fe) &&
            (f.name_contains == "" || pyIn (lowerStr f.name_contains) (lowerStr fn))) =
            false := Bool.eq_false_iff.mpr hm2
        rw [if_neg (by rw [hm2f]; simp), if_neg (by rw [hm2f]; simp), ih hrest]
        have hpred : (f.enabled && filterMatchesExt env mt fn fe f) = false := by
          simp only [filterMatchesExt, hen, Bool.true_and, hm2f]
          simp
        have hfind : List.find? (fun g => g.enabled && filterMatchesExt env mt fn fe g)
            (f :: rest) =
            List.find? (fun g => g.enabled && filterMatchesExt env mt fn fe g) rest :=
          List.find?_cons_of_neg rest (by simp [hpred])
        rw [hfind]
    · have hen2 : f.enabled = false := Bool.eq_false_iff.mpr hen
      rw [if_pos (by rw [hen2]; rfl), ih hrest]
      have hpred : (f.enabled && filterMatchesExt env mt fn fe f) = false := by
        rw [hen2, Bool.false_and]
      have hfind : List.find? (fun g => g.enabled && filterMatchesExt env mt fn fe g)
          (f :: rest) =
          List.find? (fun g => g.enabled && filterMatchesExt env mt fn fe g) rest :=
        List.find?_cons_of_neg rest (by simp [hpred])
      rw [hfind]

theorem apply_filters_eq_best (env : Env) (dry : Bool) (fas : List FilterAction)
    (fs : FSState) (fp : String) (mt : Int) (hmt : getmtime fs fp = .ok mt)
    (hall : ∀ f ∈ fas, allowedAction f = true) :
    apply_filters env dry fas fs fp =
      match bestFilter (fun f => f.enabled && filterMatches env mt (basename fp) f) fas with
      | none => (.ok none, fs)
      | some f => actionOutcome dry fs fp (basename fp)
          (lowerStr (splitext (basename fp)).2) f := by
  have hallS : ∀ f ∈ sortFiltersDesc fas, allowedAction f = true :=
    fun f hf => hall f (mem_sortFiltersDesc.mp hf)
  simp only [apply_filters]
  rw [applyFiltersGo_eq_find env dry fs fp (basename fp) (lowerStr (splitext (basename fp)).2)
    mt hmt (sortFiltersDesc fas) hallS]
  rw [show (fun f => f.enabled && filterMatchesExt env mt (basename fp)
      (lowerStr (splitext (basename fp)).2) f) =
      (fun f => f.enabled && filterMatches env mt (basename fp) f) from rfl]
  rw [find?_sortFiltersDesc]

theorem bestFilter_none (q : FilterAction → Bool) :
    ∀ l : List FilterAction, bestFilter q l = none → ∀ g ∈ l, q g = false := by
  intro l
  induction l with
  | nil => intro _ g hg; exact absurd hg (List.not_mem_nil g)
  | cons a rest ih =>
    intro h g hg
    simp only [bestFilter] at h
    split at h
    case h_1 heq =>
      rcases List.mem_cons.mp hg with rfl | hg2
      · by_cases hqa : q g = true
        · rw [if_pos hqa] at h
          exact absurd h (by simp)
        · exact Bool.eq_false_iff.mpr hqa
      · exact ih heq g hg2
    case h_2 b heq =>
      split at h <;> exact absurd h (by simp)

theorem bestFilter_spec (q : FilterAction → Bool) :
    ∀ (l : List FilterAction) (f : FilterAction), bestFilter q l = some f →
      f ∈ l ∧ q f = true ∧ ∀ g ∈ l, q g = true → g.priority ≤ f.priority := by
  intro l
  induction l with
  | nil => intro f h; exact absurd h (by simp [bestFilter])
  | cons a rest ih =>
    intro f h
    simp only [bestFilter] at h
    split at h
    case h_1 heq =>
      by_cases hqa : q a = true
      · rw [if_pos hqa] at h
        have hfa : a = f := Option.some.inj h
        subst hfa
        refine ⟨List.mem_cons_self a rest, hqa, ?_⟩
        intro g hg hq
        rcases List.mem_cons.mp hg with rfl | hg2
        · exact le_refl _
        · exact absurd hq (by simp [bestFilter_none q rest heq g hg2])
      · rw [if_neg hqa] at h
        exact absurd h (by simp)
    case h_2 b heq =>
      obtain ⟨hbmem, hbq, hbmax⟩ := ih b heq
      by_cases hc : (q a && decide (b.priority ≤ a.priority)) = true
      · rw [if_pos hc] at h
        have hfa : a = f := Option.some.inj h
        subst hfa
        rcases (show q a = true ∧ b.priority ≤ a.priority by simpa using hc) with ⟨hqa, hba⟩
        refine ⟨List.mem_cons_self a rest, hqa, ?_⟩
        intro g hg hq
        rcases List.mem_cons.mp hg with rfl | hg2
        · exact le_refl _
        · exact le_trans (hbmax g hg2 hq) hba
      · rw [if_neg hc] at h
        have hfb : b = f := Option.some.inj h
        subst hfb
        refine ⟨List.mem_cons_of_mem a hbmem, hbq, ?_⟩
        intro g hg hq
        rcases List.mem_cons.mp hg with rfl | hg2
        · by_cases hba : b.priority ≤ g.priority
          · rw [hq, Bool.true_and] at hc
            exact absurd (decide_eq_true hba) hc
          · exact le_of_not_le hba
        · exact hbmax g hg2 hq

/-- C1: the filter engine's outcome is exactly the directive of the
specification's designated filter — among the enabled filters whose
criteria all match, the one with the highest priority, ties resolved in
favour of the earliest declared (the stable descending sort), later
filters never consulted — and that designated filter dominates every
matching filter in priority. -/
theorem C1_priority_first_match :
    ∀ (env : Env) (dry : Bool) (fas : List FilterAction) (fs : FSState) (fp : String)
      (mt : Int),
      getmtime fs fp = .ok mt →
      (∀ f ∈ fas, allowedAction f = true) →
      (apply_filters env dry fas fs fp =
        match bestFilter (fun f => f.enabled && filterMatches env mt (basename fp) f) fas with
        | none => (.ok none, fs)
        | some f => actionOutcome dry fs fp (basename fp)
            (lowerStr (splitext (basename fp)).2) f) ∧
      (∀ f, bestFilter (fun f => f.enabled && filterMatches env mt (basename fp) f) fas =
          some f →
        f ∈ fas ∧ (f.enabled && filterMatches env mt (basename fp) f) = true ∧
        ∀ g ∈ fas, (g.enabled && filterMatches env mt (basename fp) g) = true →
          g.priority ≤ f.priority) :=
  fun env dry fas fs fp mt hmt hall =>
    ⟨apply_filters_eq_best env dry fas fs fp mt hmt hall,
     fun f hf => bestFilter_spec _ fas f hf⟩

/-- C1, witnessed: with a low-priority delete filter declared before a
high-priority move filter, both matching, the move filter's directive
applies; and on a priority tie the earlier declared filter's
destination wins. -/
theorem C1_priority_first_match_witness :
    (apply_filters fEnv false [fFiltDelLow, fFiltMoveHigh] fFsDoc "/t/doc.txt" =
      match bestFilter (fun f => f.enabled && filterMatches fEnv 5 (basename "/t/doc.txt") f)
          [fFiltDelLow, fFiltMoveHigh] with
      | none => (.ok none, fFsDoc)
      | some f => actionOutcome false fFsDoc "/t/doc.txt" (basename "/t/doc.txt")
          (lowerStr (splitext (basename "/t/doc.txt")).2) f) ∧
    apply_filters fEnv false [fFiltDelLow, fFiltMoveHigh] fFsDoc "/t/doc.txt" =
      (.ok (some "/high"), fFsDoc) ∧
    apply_filters fEnv false [fFiltTieA, fFiltTieB] fFsDoc "/t/doc.txt" =
      (.ok (some "/tieA"), fFsDoc) :=
  ⟨(C1_priority_first_match fEnv false [fFiltDelLow, fFiltMoveHigh] fFsDoc "/t/doc.txt" 5
      (by decide) (by decide)).1,
   by decide, by decide⟩

/-! ## Claim C10 -/

/-- C10: when the first matching enabled filter is a move with an empty
destination, the filter pass returns that empty string — no later
filter is consulted and the filter phase mutates nothing — and the
orchestrator's truthiness test treats it as no directive, so the file
proceeds directly to folder-rule destination resolution. -/
theorem C10_empty_destination_falls_through :
    ∀ (env : Env) (cfg : OrgConfig) (st : RunState) (root file : String) (mt : Int)
      (f : FilterAction),
      getmtime st.fs (pathJoin root file) = .ok mt →
      (∀ g ∈ cfg.filter_actions, allowedAction g = true) →
      bestFilter (fun g => g.enabled &&
        filterMatches env mt (basename (pathJoin root file)) g) cfg.filter_actions = some f →
      (f.action_type == "move" || f.action_type == "move_external") = true →
      f.destination = "" →
      is_excluded env cfg.settings st.fs file = false →
      apply_filters env false cfg.filter_actions st.fs (pathJoin root file) =
        (.ok (some ""), st.fs) ∧
      processFile env cfg st root file =
        folderPhase env cfg st root file (pathJoin root file) st.fs := by
  intro env cfg st root file mt f hmt hall hbest hmv hdst hexc
  have happ := apply_filters_eq_best env false cfg.filter_actions st.fs (pathJoin root file)
    mt hmt hall
  rw [hbest] at happ
  have hout : actionOutcome false st.fs (pathJoin root file) (basename (pathJoin root file))
      (lowerStr (splitext (basename (pathJoin root file))).2) f = (.ok (some ""), st.fs) := by
    simp only [actionOutcome, applyActionK]
    rcases (show f.action_type = "move" ∨ f.action_type = "move_external" by
      simpa using hmv) with h1 | h1
    · rw [h1, hdst]
      rfl
    · rw [h1, hdst]
      rfl
  have happ2 : apply_filters env false cfg.filter_actions st.fs (pathJoin root file) =
      actionOutcome false st.fs (pathJoin root file) (basename (pathJoin root file))
        (lowerStr (splitext (basename (pathJoin root file))).2) f := happ
  rw [hout] at happ2
  refine ⟨happ2, ?_⟩
  simp only [processFile, hexc, Bool.false_eq_true, if_false, happ2]
  rfl

/-- C10, witnessed: the empty-destination move filter outprioritizes a
delete filter; the pass returns the empty directive, the delete filter
never fires, and the run resolves the file by folder rules instead. -/
theorem C10_empty_destination_falls_through_witness :
    apply_filters fEnv false fCfgEmptyDest.filter_actions fStDoc.fs
      (pathJoin "/t" "doc.txt") = (.ok (some ""), fStDoc.fs) ∧
    processFile fEnv fCfgEmptyDest fStDoc "/t" "doc.txt" =
      folderPhase fEnv fCfgEmptyDest fStDoc "/t" "doc.txt" (pathJoin "/t" "doc.txt")
        fStDoc.fs :=
  C10_empty_destination_falls_through fEnv fCfgEmptyDest fStDoc "/t" "doc.txt" 5
    fFiltMoveEmpty (by decide) (by decide) (by decide) (by decide) (by decide) (by decide)

/-! ## Claim C2: the destination resolver matches its specification -/

theorem toList_append (a b : String) : (a ++ b).toList = a.toList ++ b.toList :=
  String.data_append a b

theorem mem_insertRuleAsc {b r : FolderRule} {l : List FolderRule} :
    b ∈ insertRuleAsc r l ↔ b = r ∨ b ∈ l := by
  induction l with
  | nil => simp [insertRuleAsc]
  | cons s ss ih =>
    simp only [insertRuleAsc]
    split
    · simp [List.mem_cons]
    · simp only [List.mem_cons, ih]
      tauto

theorem mem_sortRulesAsc {b : FolderRule} {l : List FolderRule} :
    b ∈ sortRulesAsc l ↔ b ∈ l := by
  induction l with
  | nil => simp [sortRulesAsc]
  | cons r rs ih =>
    simp only [sortRulesAsc, mem_insertRuleAsc, ih, List.mem_cons]

theorem filter_insertRuleAsc (lv : Nat) (x : FolderRule) (s : List FolderRule) :
    (insertRuleAsc x s).filter (fun r => r.hierarchy_level == lv && r.enabled) =
      (if (x.hierarchy_level == lv && x.enabled) = true then [x] else []) ++
        s.filter (fun r => r.hierarchy_level == lv && r.enabled) := by
  induction s with
  | nil =>
    simp only [insertRuleAsc, List.filter, List.append_nil]
    split <;> simp_all
  | cons y ys ih =>
    simp only [insertRuleAsc]
    split
    case isTrue hle =>
      rw [List.filter_cons]
      split <;> simp
    case isFalse hgt =>
      rw [List.filter_cons, ih, List.filter_cons]
      by_cases hpx : (x.hierarchy_level == lv && x.enabled) = true
      · have hxl : x.hierarchy_level = lv := by
          rcases (show (x.hierarchy_level == lv) = true ∧ x.enabled = true by simpa using hpx)
            with ⟨h1, _⟩
          exact beq_iff_eq.mp h1
        have hyl : y.hierarchy_level < x.hierarchy_level := lt_of_not_le hgt
        have hylv : y.hierarchy_level ≠ lv := by
          rw [hxl] at hyl
          exact Nat.ne_of_lt hyl
        have hpy : (y.hierarchy_level == lv && y.enabled) = false := by
          simp [hylv]
        rw [hpx, hpy]
        simp
      · have hpxf : (x.hierarchy_level == lv && x.enabled) = false :=
          Bool.eq_false_iff.mpr hpx
        rw [hpxf]
        split <;> simp

theorem filter_sortRulesAsc (lv : Nat) (l : List FolderRule) :
    (sortRulesAsc l).filter (fun r => r.hierarchy_level == lv && r.enabled) =
      l.filter (fun r => r.hierarchy_level == lv && r.enabled) := by
  induction l with
  | nil => rfl
  | cons x xs ih =>
    simp only [sortRulesAsc]
    rw [filter_insertRuleAsc lv x (sortRulesAsc xs), ih, List.filter_cons]
    split <;> simp

theorem levelPick_eq_find (env : Env) (fs : FSState) (fp fe d : String) :
    ∀ lst : List FolderRule,
      levelPick env fs fp fe d lst =
        match lst.find? (fun r => specRuleMatches r fe) with
        | none => .ok d
        | some r =>
          match specSegment env fs fp r with
          | .error e => .error e
          | .ok seg => .ok (pathJoin d seg) := by
  intro lst
  induction lst with
  | nil => rfl
  | cons r rs ih =>
    simp only [levelPick]
    by_cases ht : r.is_time_based = true
    · rw [if_pos ht]
      have hfind : List.find? (fun r => specRuleMatches r fe) (r :: rs) = some r :=
        List.find?_cons_of_pos rs (by simp [specRuleMatches, ht])
      rw [hfind]
      simp only [specSegment, ht, if_true]
      cases get_file_date fs fp r.date_source <;> rfl
    · have ht2 : r.is_time_based = false := Bool.eq_false_iff.mpr ht
      rw [if_neg (by simp [ht2])]
      by_cases hext : r.file_extensions.contains fe = true
      · rw [if_pos hext]
        have hfind : List.find? (fun r => specRuleMatches r fe) (r :: rs) = some r :=
          List.find?_cons_of_pos rs
            (by simp only [specRuleMatches, ht2, Bool.false_or]; exact hext)
        rw [hfind]
        simp [specSegment, ht2]
      · rw [if_neg hext]
        have hfind : List.find? (fun r => specRuleMatches r fe) (r :: rs) =
            List.find? (fun r => specRuleMatches r fe) rs :=
          List.find?_cons_of_neg rs
            (by simp only [specRuleMatches, ht2, Bool.false_or]; exact hext)
        rw [hfind, ih]

theorem levelsGo_eq_segments (env : Env) (fs : FSState) (fp fe : String)
    (rules : List FolderRule) :
    ∀ (ls : List Nat) (d : String),
      levelsGo env fs fp fe rules ls d =
        match specSegments env fs fp fe rules ls with
        | .error e => .error e
        | .ok segs => .ok (segs.foldl pathJoin d) := by
  intro ls
  induction ls with
  | nil => intro d; rfl
  | cons lv lls ih =>
    intro d
    simp only [levelsGo, specSegments, specLevelSegment]
    rw [levelPick_eq_find]
    cases hfind : (rules.filter (fun r => r.hierarchy_level == lv && r.enabled)).find?
        (fun r => specRuleMatches r fe) with
    | none =>
      simp only
      exact ih d
    | some r =>
      simp only
      cases hseg : specSegment env fs fp r with
      | error e => rfl
      | ok seg =>
        simp only
        rw [ih (pathJoin d seg)]
        cases specSegments env fs fp fe rules lls with
        | error e => rfl
        | ok segs => rfl

theorem specSegments_sortRulesAsc (env : Env) (fs : FSState) (fp fe : String)
    (rules : List FolderRule) :
    ∀ ls : List Nat,
      specSegments env fs fp fe (sortRulesAsc rules) ls =
        specSegments env fs fp fe rules ls := by
  intro ls
  induction ls with
  | nil => rfl
  | cons lv lls ih =>
    simp only [specSegments, specLevelSegment, filter_sortRulesAsc, ih]

theorem timeFolderName_good (env : Env)
    (hf : ∀ pat ts, (env.fmt pat ts).toList ≠ [] ∧ (env.fmt pat ts).toList.head? ≠ some '/')
    (r : FolderRule) (ts : Int) :
    (timeFolderName env r ts).toList ≠ [] ∧
      (timeFolderName env r ts).toList.head? ≠ some '/' := by
  simp only [timeFolderName]
  repeat' split
  all_goals exact hf _ _

theorem specLevelSegment_good (env : Env) (fs : FSState) (fp fe : String)
    (rules : List FolderRule) (lv : Nat) (seg : String)
    (hr : ∀ r ∈ rules, r.is_time_based = false →
      r.folder_name.toList ≠ [] ∧ r.folder_name.toList.head? ≠ some '/')
    (hf : ∀ pat ts, (env.fmt pat ts).toList ≠ [] ∧ (env.fmt pat ts).toList.head? ≠ some '/')
    (h : specLevelSegment env fs fp fe rules lv = .ok (some seg)) :
    seg.toList ≠ [] ∧ seg.toList.head? ≠ some '/' := by
  simp only [specLevelSegment] at h
  split at h
  case h_1 heq => exact absurd (Except.ok.inj h) (by simp)
  case h_2 r heq =>
    have hmem : r ∈ rules :=
      (List.mem_filter.mp (List.mem_of_find?_eq_some heq)).1
    split at h
    case h_1 e heq2 => exact absurd h (by simp)
    case h_2 sege heq2 =>
      have hse : sege = seg := Option.some.inj (Except.ok.inj h)
      subst hse
      simp only [specSegment] at heq2
      split at heq2
      case isTrue ht =>
        split at heq2
        case h_1 e heq3 => exact absurd heq2 (by simp)
        case h_2 ts heq3 =>
          have := Except.ok.inj heq2
          rw [← this]
          exact timeFolderName_good env hf r ts
      case isFalse ht =>
        have := Except.ok.inj heq2
        rw [← this]
        exact hr r hmem (Bool.eq_false_iff.mpr ht)

theorem specSegments_good (env : Env) (fs : FSState) (fp fe : String)
    (rules : List FolderRule)
    (hr : ∀ r ∈ rules, r.is_time_based = false →
      r.folder_name.toList ≠ [] ∧ r.folder_name.toList.head? ≠ some '/')
    (hf : ∀ pat ts, (env.fmt pat ts).toList ≠ [] ∧ (env.fmt pat ts).toList.head? ≠ some '/') :
    ∀ (ls : List Nat) (segs : List String),
      specSegments env fs fp fe rules ls = .ok segs →
      ∀ s ∈ segs, s.toList ≠ [] ∧ s.toList.head? ≠ some '/' := by
  intro ls
  induction ls with
  | nil =>
    intro segs h s hs
    have h2 : ([] : List String) = segs := Except.ok.inj h
    rw [← h2] at hs
    exact absurd hs (List.not_mem_nil s)
  | cons lv lls ih =>
    intro segs h s hs
    simp only [specSegments] at h
    split at h
    case h_1 e heq => exact absurd h (by simp)
    case h_2 heq => exact ih segs h s hs
    case h_3 seg heq =>
      split at h
      case h_1 e heq2 => exact absurd h (by simp)
      case h_2 segs2 heq2 =>
        have h3 : seg :: segs2 = segs := Except.ok.inj h
        rw [← h3] at hs
        rcases List.mem_cons.mp hs with rfl | hs2
        · exact specLevelSegment_good env fs fp fe rules lv s hr hf heq
        · exact ih segs2 heq2 s hs2

theorem pathJoin_length_lt (a : String) {b : String} (hne : b.toList ≠ [])
    (habs : b.toList.head? ≠ some '/') :
    a.toList.length < (pathJoin a b).toList.length := by
  have hc : (b.toList.head? == some '/') = false := by
    rw [beq_eq_false_iff_ne]
    exact habs
  have hb1 : 1 ≤ b.toList.length := by
    cases hbl : b.toList with
    | nil => exact absurd hbl hne
    | cons c cs => simp
  simp only [pathJoin, hc, Bool.false_eq_true, if_false]
  split
  · rw [toList_append, List.length_append]
    omega
  · rw [toList_append, toList_append, List.length_append, List.length_append]
    omega

theorem foldl_pathJoin_length (t : String) :
    ∀ segs : List String,
      (∀ s ∈ segs, s.toList ≠ [] ∧ s.toList.head? ≠ some '/') →
      t.toList.length ≤ (segs.foldl pathJoin t).toList.length := by
  intro segs
  induction segs generalizing t with
  | nil => intro _; exact le_refl _
  | cons s ss ih =>
    intro hall
    have hs := hall s (List.mem_cons_self s ss)
    have hss : ∀ x ∈ ss, x.toList ≠ [] ∧ x.toList.head? ≠ some '/' :=
      fun x hx => hall x (List.mem_cons_of_mem s hx)
    calc t.toList.length ≤ (pathJoin t s).toList.length :=
          le_of_lt (pathJoin_length_lt t hs.1 hs.2)
      _ ≤ ((s :: ss).foldl pathJoin t).toList.length := ih (pathJoin t s) hss

theorem foldl_pathJoin_ne (t : String) (s : String) (ss : List String)
    (hall : ∀ x ∈ s :: ss, x.toList ≠ [] ∧ x.toList.head? ≠ some '/') :
    (s :: ss).foldl pathJoin t ≠ t := by
  have hs := hall s (List.mem_cons_self s ss)
  have hss : ∀ x ∈ ss, x.toList ≠ [] ∧ x.toList.head? ≠ some '/' :=
    fun x hx => hall x (List.mem_cons_of_mem s hx)
  have h1 : t.toList.length < (pathJoin t s).toList.length :=
    pathJoin_length_lt t hs.1 hs.2
  have h2 : (pathJoin t s).toList.length ≤ ((s :: ss).foldl pathJoin t).toList.length :=
    foldl_pathJoin_length (pathJoin t s) ss hss
  intro heq
  rw [heq] at h2
  omega

/-- C2: the destination resolver coincides with the specification-side
resolver (levels 1 through 5 in order, first enabled matching rule per
level in declaration order, one segment per matched level, segments
appended to the target root in level order, no destination when no
level matched), for every configuration whose folder names and
time-derived segments are nonempty relative names. -/
theorem C2_resolver_matches_spec :
    ∀ (env : Env) (fs : FSState) (rules : List FolderRule) (target fp : String),
      (∀ r ∈ rules, r.is_time_based = false →
        r.folder_name.toList ≠ [] ∧ r.folder_name.toList.head? ≠ some '/') →
      (∀ pat ts, (env.fmt pat ts).toList ≠ [] ∧ (env.fmt pat ts).toList.head? ≠ some '/') →
      get_destination env fs rules target fp = specResolve env fs rules target fp := by
  intro env fs rules target fp hr hf
  simp only [get_destination, specResolve]
  rw [levelsGo_eq_segments, specSegments_sortRulesAsc]
  cases hsegs : specSegments env fs fp (lowerStr (splitext (basename fp)).2) rules
      [1, 2, 3, 4, 5] with
  | error e => rfl
  | ok segs =>
    cases segs with
    | nil => simp
    | cons s ss =>
      have hgood := specSegments_good env fs fp (lowerStr (splitext (basename fp)).2) rules
        hr hf [1, 2, 3, 4, 5] (s :: ss) hsegs
      have hne2 : (s :: ss).foldl pathJoin target ≠ target :=
        foldl_pathJoin_ne target s ss hgood
      have hne3 : List.foldl pathJoin (pathJoin target s) ss ≠ target := by
        simpa using hne2
      simp [hne3]

/-- C2, witnessed on the spec's own composition example: a time-based
level-1 rule and an extension-based level-2 rule resolve two levels
deep with the time segment outermost, and the code resolver agrees with
the specification resolver. -/
theorem C2_resolver_matches_spec_witness :
    get_destination fEnv fFsDoc [fRuleTime, fRuleTxt2] "/t" "/t/doc.txt" =
      specResolve fEnv fFsDoc [fRuleTime, fRuleTxt2] "/t" "/t/doc.txt" ∧
    get_destination fEnv fFsDoc [fRuleTime, fRuleTxt2] "/t" "/t/doc.txt" =
      .ok (some (pathJoin (pathJoin "/t" "Mar") "Docs")) :=
  ⟨C2_resolver_matches_spec fEnv fFsDoc [fRuleTime, fRuleTxt2] "/t" "/t/doc.txt"
      (by decide)
      (by
        intro pat ts
        simp only [fEnv]
        split <;> exact ⟨by decide, by decide⟩),
   by decide⟩

/-! ## Claim C9, amended -/

theorem levelPick_ext_only (env : Env) (fs : FSState) (p1 p2 fe d : String) :
    ∀ lst : List FolderRule, (∀ r ∈ lst, r.is_time_based = false) →
      levelPick env fs p1 fe d lst = levelPick env fs p2 fe d lst := by
  intro lst
  induction lst with
  | nil => intro _; rfl
  | cons r rs ih =>
    intro hall
    have hr := hall r (List.mem_cons_self r rs)
    have hrs : ∀ x ∈ rs, x.is_time_based = false :=
      fun x hx => hall x (List.mem_cons_of_mem r hx)
    simp only [levelPick, hr, Bool.false_eq_true, if_false]
    split
    · rfl
    · exact ih hrs

/-- C9 amended: the file-side half of the claim holds — the file's
extension is lowered before comparison, so two paths whose extensions
agree up to case resolve identically whenever no enabled time-based
rule makes the result date-dependent; the counterexample refutes the
configuration-side half. -/
theorem C9_file_extension_case_insensitive :
    ∀ (env : Env) (fs : FSState) (rules : List FolderRule) (target p1 p2 : String),
      (∀ r ∈ rules, r.enabled = true → r.is_time_based = false) →
      lowerStr (splitext (basename p1)).2 = lowerStr (splitext (basename p2)).2 →
      get_destination env fs rules target p1 = get_destination env fs rules target p2 := by
  intro env fs rules target p1 p2 hr hext
  simp only [get_destination]
  rw [hext]
  have hlg : ∀ (ls : List Nat) (d : String),
      levelsGo env fs p1 (lowerStr (splitext (basename p2)).2) (sortRulesAsc rules) ls d =
        levelsGo env fs p2 (lowerStr (splitext (basename p2)).2) (sortRulesAsc rules) ls d := by
    intro ls
    induction ls with
    | nil => intro d; rfl
    | cons lv lls ih =>
      intro d
      simp only [levelsGo]
      have hflt : ∀ r ∈ (sortRulesAsc rules).filter
          (fun r => r.hierarchy_level == lv && r.enabled), r.is_time_based = false := by
        intro r hrf
        have h1 := List.mem_filter.mp hrf
        have h2 : r ∈ rules := mem_sortRulesAsc.mp h1.1
        rcases (show (r.hierarchy_level == lv) = true ∧ r.enabled = true by simpa using h1.2)
          with ⟨_, he⟩
        exact hr r h2 he
      rw [levelPick_ext_only env fs p1 p2 (lowerStr (splitext (basename p2)).2) d _ hflt]
      cases levelPick env fs p2 (lowerStr (splitext (basename p2)).2) d
          ((sortRulesAsc rules).filter (fun r => r.hierarchy_level == lv && r.enabled)) with
      | error e => rfl
      | ok d1 => exact ih d1
  rw [hlg [1, 2, 3, 4, 5] target]

/-- C9 amended, witnessed: changing the case of the file's extension
(doc.TXT versus doc.txt) leaves the resolved destination unchanged. -/
theorem C9_file_extension_case_insensitive_witness :
    get_destination fEnv fFsDoc [fRuleTxt] "/t" "/t/doc.TXT" =
      get_destination fEnv fFsDoc [fRuleTxt] "/t" "/t/doc.txt" ∧
    get_destination fEnv fFsDoc [fRuleTxt] "/t" "/t/doc.txt" = .ok (some "/t/Docs") :=
  ⟨C9_file_extension_case_insensitive fEnv fFsDoc [fRuleTxt] "/t" "/t/doc.TXT" "/t/doc.txt"
      (by decide) (by decide),
   by decide⟩

end FOrg
